import Mathlib

/-! # cpp-netlib `sync_connection`: a shallow embedding

Source: `boost/network/protocol/http/server/sync_connection.hpp`.

The connection is a chain of completion callbacks (`handle_read_headers`,
`handle_read_body_contents`, `handle_write`).  Each callback is embedded as a
pure function on the connection's fields; the asynchronous operation a callback
issues is recorded in `pending` (which callback the reactor will run next) and
in `trace` (the externally visible actions, in order).

Conventions
* `std::string` is `List Char`; the read window `buffer_` is represented by the
  span `[0, bytes_transferred)` of the last read, the only part the code reads.
* `size_t` / `unsigned long` are `Nat` with explicit reduction modulo
  `2 ^ size_bits` (both types have the same width, as on LP64 and ILP32).
* `std::error_code` is a `Bool` (`true`: an error is set).
* The header parser, the handler, the stock reply and the remote endpoint are
  collaborators that are not part of this file; they are fields of `collab`.
-/

namespace SyncConnection

/-! ## Data model -/

/-- The three values of `boost::tribool`. -/
inductive tribool where
  | false_value
  | true_value
  | indeterminate_value
  deriving DecidableEq, Repr

/-- One request header: a name and a value. -/
structure request_header where
  name : List Char
  value : List Char
  deriving DecidableEq, Repr

/-- The fields of `basic_request<Tag>` the connection reads or writes. -/
structure basic_request where
  method : List Char
  headers : List request_header
  body : List Char
  source : List Char
  source_port : Nat
  deriving DecidableEq, Repr

/-- What `parser_.parse_headers(request_, begin, end)` hands back: the tribool,
the cursor `new_start` (as an offset from `buffer_.data()`), and the parser and
request objects it has updated in place. -/
structure parse_result (PS : Type) where
  done : tribool
  new_start : Nat
  parser_state : PS
  request : basic_request

/-- The collaborators of a connection.  `size_bits` is the width of `size_t`. -/
structure collab (PS Resp : Type) where
  size_bits : Nat
  parse_headers : PS → basic_request → List Char → parse_result PS
  handler_ : basic_request → Resp → Resp
  stock_reply_bad_request : Resp
  remote_address : List Char
  remote_port : Nat

/-- The completion callback that the reactor holds for the connection. -/
inductive pending_op where
  | read_headers
  | read_body_contents (bytes_to_read : Nat)
  | write
  | idle
  deriving DecidableEq, Repr

/-- Externally visible actions of a connection. -/
inductive action (Resp : Type) where
  | async_read_some
  | async_write (buffers : Resp)
  | handler_call (request : basic_request)
  | shutdown_receive
  deriving DecidableEq, Repr

/-- The mutable members of `sync_connection`, with the scheduled callback and
the actions performed so far. -/
structure sync_connection (PS Resp : Type) where
  parser_ : PS
  request_ : basic_request
  response_ : Resp
  pending : pending_op
  trace : List (action Resp)

/-- A completion delivered by the reactor. -/
inductive completion where
  | read (ec : Bool) (data : List Char)
  | write (ec : Bool)
  deriving DecidableEq, Repr

/-- Default of `BOOST_NETWORK_HTTP_SERVER_CONNECTION_BUFFER_SIZE`. -/
def BUFFER_SIZE : Nat := 1024

/-! ## Library functions used by the callbacks -/

/-- Subtraction on `size_t`: the result is reduced modulo `2 ^ w`. -/
def size_sub (w a b : Nat) : Nat :=
  (a % 2 ^ w + (2 ^ w - b % 2 ^ w)) % 2 ^ w

/-- The C locale `isspace`. -/
def isspace (c : Char) : Bool :=
  c = ' ' || c = '\t' || c = '\n' || c = '\x0b' || c = '\x0c' || c = '\r'

/-- The value of a run of decimal digits, most significant first. -/
def digits_value (ds : List Char) : Nat :=
  ds.foldl (fun acc c => 10 * acc + (c.toNat - '0'.toNat)) 0

/-- Removes an optional sign; the flag tells whether it was a minus. -/
def strip_sign : List Char → Bool × List Char
  | '-' :: t => (true, t)
  | '+' :: t => (false, t)
  | s => (false, s)

/-- The call `std::stoul(str)` (base 10, no `pos`), which is `strtoul`: leading
white space is skipped, one sign is optional, then the longest run of decimal
digits is converted and whatever follows is ignored.  `none` stands for the
two exceptions: `std::invalid_argument` (no digit to convert) and
`std::out_of_range` (the digits do not fit `unsigned long`).  A minus sign
negates the value in the unsigned type. -/
def stoul (w : Nat) (str : List Char) : Option Nat :=
  let subject := strip_sign (str.dropWhile isspace)
  let ds := subject.2.takeWhile Char.isDigit
  if ds = [] then none
  else if 2 ^ w ≤ digits_value ds then none
  else if subject.1 then some ((2 ^ w - digits_value ds) % 2 ^ w)
  else some (digits_value ds)

/-- The result of `boost::to_lower_copy` in the classic locale. -/
def to_lower_copy (s : List Char) : List Char :=
  s.map Char.toLower

/-- The predicate `is_content_length`. -/
def is_content_length (h : request_header) : Bool :=
  to_lower_copy h.name == "content-length".toList

/-! ## The callbacks -/

variable {PS Resp : Type}

/-- An `async_read_some` whose completion runs `next`. -/
def schedule_read (c : sync_connection PS Resp) (next : pending_op) :
    sync_connection PS Resp :=
  { c with pending := next, trace := c.trace ++ [action.async_read_some] }

/-- The block `asio::async_write(socket_, response_.to_buffers(), ...)`, whose
completion runs `handle_write`. -/
def schedule_write (c : sync_connection PS Resp) : sync_connection PS Resp :=
  { c with pending := pending_op.write,
           trace := c.trace ++ [action.async_write c.response_] }

/-- The block `response_ = stock_reply(bad_request); async_write(...)`. -/
def reply_bad_request (env : collab PS Resp) (c : sync_connection PS Resp) :
    sync_connection PS Resp :=
  schedule_write { c with response_ := env.stock_reply_bad_request }

/-- The block `handler_(request_, response_); async_write(...)`. -/
def call_handler (env : collab PS Resp) (c : sync_connection PS Resp) :
    sync_connection PS Resp :=
  schedule_write
    { c with response_ := env.handler_ c.request_ c.response_,
             trace := c.trace ++ [action.handler_call c.request_] }

/-- The call `request_.body.append(first, last)`. -/
def body_append (c : sync_connection PS Resp) (bytes : List Char) :
    sync_connection PS Resp :=
  { c with request_ := { c.request_ with body := c.request_.body ++ bytes } }

/-- The member `start()`: the first read is issued. -/
def start (c : sync_connection PS Resp) : sync_connection PS Resp :=
  schedule_read c pending_op.read_headers

/-- The part of `handle_read_headers` after `std::stoul` has returned
(source lines 118 to 144).  The offset `new_start` lies in
`[0, bytes_transferred]` by the contract of the parser. -/
def after_content_length (env : collab PS Resp) (c : sync_connection PS Resp)
    (content_length new_start : Nat) (data : List Char) : sync_connection PS Resp :=
  if content_length ≠ 0 then
    let bytes_transferred := data.length
    let c1 := if new_start ≠ bytes_transferred then body_append c (data.drop new_start) else c
    let content_length1 :=
      if new_start ≠ bytes_transferred then
        size_sub env.size_bits content_length (bytes_transferred - new_start)
      else content_length
    if content_length1 > 0 then
      schedule_read c1 (pending_op.read_body_contents content_length1)
    else call_handler env c1
  else call_handler env c

/-- The branch `if (done)` of `handle_read_headers` (source lines 84 to 153). -/
def headers_done (env : collab PS Resp) (c : sync_connection PS Resp)
    (new_start : Nat) (data : List Char) : sync_connection PS Resp :=
  if c.request_.method.head? = some 'P' then
    match c.request_.headers.find? is_content_length with
    | none => reply_bad_request env c
    | some it =>
      match stoul env.size_bits it.value with
      | none => reply_bad_request env c
      | some content_length => after_content_length env c content_length new_start data
  else call_handler env c

/-- The result of the call `parser_.parse_headers(request_, buffer_.data(),
buffer_.data() + bytes_transferred)`; the two assignments of the remote
endpoint to `request_` come first. -/
def parsed (env : collab PS Resp) (c : sync_connection PS Resp) (data : List Char) :
    parse_result PS :=
  env.parse_headers c.parser_
    { c.request_ with source := env.remote_address, source_port := env.remote_port } data

/-- The connection right after the call of the parser: the parser and the
request are the updated ones and no operation is outstanding. -/
def after_parse (env : collab PS Resp) (c : sync_connection PS Resp) (data : List Char) :
    sync_connection PS Resp :=
  { c with parser_ := (parsed env c data).parser_state, request_ := (parsed env c data).request,
           pending := pending_op.idle }

/-- The callback `handle_read_headers(ec, bytes_transferred)`; `data` is the
span `[0, bytes_transferred)` of `buffer_`. -/
def handle_read_headers (env : collab PS Resp) (c : sync_connection PS Resp)
    (ec : Bool) (data : List Char) : sync_connection PS Resp :=
  if ec then { c with pending := pending_op.idle }
  else
    match (parsed env c data).done with
    | tribool.true_value =>
      headers_done env (after_parse env c data) (parsed env c data).new_start data
    | tribool.false_value => reply_bad_request env (after_parse env c data)
    | tribool.indeterminate_value =>
      schedule_read (after_parse env c data) pending_op.read_headers

/-- The callback `handle_read_body_contents(ec, bytes_to_read, bytes_transferred)`. -/
def handle_read_body_contents (env : collab PS Resp) (c : sync_connection PS Resp)
    (ec : Bool) (bytes_to_read : Nat) (data : List Char) : sync_connection PS Resp :=
  if ec then { c with pending := pending_op.idle }
  else
    let bytes_transferred := data.length
    let difference := size_sub env.size_bits bytes_to_read bytes_transferred
    let past_end := min bytes_to_read bytes_transferred
    let c1 := body_append { c with pending := pending_op.idle } (data.take past_end)
    if difference = 0 then call_handler env c1
    else schedule_read c1 (pending_op.read_body_contents difference)

/-- The callback `handle_write(ec)`. -/
def handle_write (c : sync_connection PS Resp) (ec : Bool) : sync_connection PS Resp :=
  if ec then { c with pending := pending_op.idle }
  else { c with pending := pending_op.idle, trace := c.trace ++ [action.shutdown_receive] }

/-- The reactor runs the callback that was bound to the completed operation.
A completion that matches no outstanding operation cannot occur and leaves the
connection as it is. -/
def deliver (env : collab PS Resp) (c : sync_connection PS Resp) :
    completion → sync_connection PS Resp
  | completion.read ec data =>
    match c.pending with
    | pending_op.read_headers => handle_read_headers env c ec data
    | pending_op.read_body_contents n => handle_read_body_contents env c ec n data
    | _ => c
  | completion.write ec =>
    match c.pending with
    | pending_op.write => handle_write c ec
    | _ => c

/-- A sequence of completions, delivered in order. -/
def run (env : collab PS Resp) (c : sync_connection PS Resp) (evs : List completion) :
    sync_connection PS Resp :=
  evs.foldl (deliver env) c

/-- The requests the handler was called with, in order. -/
def handler_calls : List (action Resp) → List basic_request
  | [] => []
  | action.handler_call r :: t => r :: handler_calls t
  | _ :: t => handler_calls t

/-- The number of reads issued. -/
def reads_issued : List (action Resp) → Nat
  | [] => 0
  | action.async_read_some :: t => reads_issued t + 1
  | _ :: t => reads_issued t

/-- The responses written, in order. -/
def writes_issued : List (action Resp) → List Resp
  | [] => []
  | action.async_write r :: t => r :: writes_issued t
  | _ :: t => writes_issued t

/-! ## A concrete connection for evaluation -/

/-- A parser stub that reports complete headers for a fixed method and header
list and has consumed the first `cursor` bytes of the read. -/
def parser_stub (method : List Char) (headers : List request_header) (cursor : Nat) :
    Unit → basic_request → List Char → parse_result Unit :=
  fun _ req _ =>
    { done := tribool.true_value, new_start := cursor, parser_state := (),
      request := { req with method := method, headers := headers } }

/-- A 64-bit environment around `parser_stub`; the handler answers with the
length of the body it was given, the stock reply is 400. -/
def demo_env (method : List Char) (headers : List request_header) (cursor : Nat) :
    collab Unit Nat :=
  { size_bits := 64,
    parse_headers := parser_stub method headers cursor,
    handler_ := fun req _ => 200000 + req.body.length,
    stock_reply_bad_request := 400,
    remote_address := "127.0.0.1".toList,
    remote_port := 4000 }

/-- A freshly constructed connection after `start()`. -/
def fresh : sync_connection Unit Nat :=
  start { parser_ := (), request_ := ⟨[], [], [], [], 0⟩, response_ := 0,
          pending := pending_op.idle, trace := [] }

/-- A `Content-Length` header with the given value. -/
def content_length_header (value : String) : request_header :=
  { name := "Content-Length".toList, value := value.toList }

/-- The environment of a `POST` request whose only header is `Content-Length`
with the given value, the header block being the first 7 bytes of the read. -/
def post_env (value : String) : collab Unit Nat :=
  demo_env "POST".toList [content_length_header value] 7

/-- A 7-byte read that the stub parser takes for a whole header block. -/
def head_bytes : List Char := List.replicate 7 'h'

/-- A successful read of `n` bytes. -/
def filler (n : Nat) : completion :=
  completion.read false (List.replicate n 'x')

/-- A trace in which one body read carries one byte too many.  The headers
(`Content-Length: 1`) complete in the first read; the second read brings 2
bytes; the reads after it bring `2 ^ 64 - 1` bytes, none of them more than
`BUFFER_SIZE`. -/
def overrun_trace : List completion :=
  completion.read false head_bytes :: filler 2 :: filler 1023 ::
    List.replicate (2 ^ 54 - 1) (filler 1024)

/-- An upper-case ASCII letter, `A` to `Z`. -/
def is_ascii_upper (c : Char) : Bool :=
  decide (65 ≤ c.toNat ∧ c.toNat ≤ 90)

/-- ASCII case-insensitive equality of two characters: the characters are
equal, or one of them is an upper-case ASCII letter and the other one is the
character 32 code points above it (its lower-case form). -/
def ascii_ieq_char (a b : Char) : Bool :=
  a == b || (is_ascii_upper a && b == Char.ofNat (a.toNat + 32)) ||
    (is_ascii_upper b && a == Char.ofNat (b.toNat + 32))

/-- ASCII case-insensitive equality of two strings: the same length, and equal
position by position up to ASCII case. -/
def ascii_ieq : List Char → List Char → Bool
  | [], [] => true
  | a :: s, b :: t => ascii_ieq_char a b && ascii_ieq s t
  | _, _ => false

/-- The header name that frames the body, in lower case. -/
def content_length_name : List Char := "content-length".toList

/-- Three headers; the second and the third are both named `Content-Length`
up to case. -/
def demo_headers : List request_header :=
  [{ name := "Host".toList, value := "a".toList },
   { name := "CONTENT-length".toList, value := "3".toList },
   { name := "Content-Length".toList, value := "7".toList }]

/-- The number of `shutdown(shutdown_receive)` calls. -/
def shutdowns_issued : List (action Resp) → Nat
  | [] => 0
  | action.shutdown_receive :: t => shutdowns_issued t + 1
  | _ :: t => shutdowns_issued t

/-- The number of asynchronous operations issued, reads and writes together. -/
def ops_issued : List (action Resp) → Nat
  | [] => 0
  | action.async_read_some :: t => ops_issued t + 1
  | action.async_write _ :: t => ops_issued t + 1
  | _ :: t => ops_issued t

/-- The number of operations whose completion callback is still to run. -/
def outstanding : pending_op → Nat
  | pending_op.idle => 0
  | _ => 1

/-- Whether a completion belongs to the outstanding operation, so that
`deliver` runs a callback for it. -/
def accepts : pending_op → completion → Bool
  | pending_op.read_headers, completion.read _ _ => true
  | pending_op.read_body_contents _, completion.read _ _ => true
  | pending_op.write, completion.write _ => true
  | _, _ => false

/-- The number of callbacks that run while `evs` is delivered. -/
def callbacks_run (env : collab PS Resp) (c : sync_connection PS Resp) :
    List completion → Nat
  | [] => 0
  | ev :: evs =>
    (if accepts c.pending ev then 1 else 0) + callbacks_run env (deliver env c ev) evs

/-- The first `n` reads of an unending sequence of reads. -/
def stream_chunks (s : Nat → List Char) : Nat → List (List Char)
  | 0 => []
  | n + 1 => s 0 :: stream_chunks (fun i => s (i + 1)) n

/-- Whether the completion carries a transport error (`ec` is set). -/
def has_error : completion → Bool
  | completion.read ec _ => ec
  | completion.write ec => ec

/-- A parser stub that gives a fixed tribool and consumes the whole read. -/
def verdict_stub (done : tribool) : Unit → basic_request → List Char → parse_result Unit :=
  fun _ req data =>
    { done := done, new_start := data.length, parser_state := (), request := req }

/-- A 64-bit environment around `verdict_stub`. -/
def verdict_env (done : tribool) : collab Unit Nat :=
  { size_bits := 64,
    parse_headers := verdict_stub done,
    handler_ := fun req _ => 200000 + req.body.length,
    stock_reply_bad_request := 400,
    remote_address := "127.0.0.1".toList,
    remote_port := 4000 }

/-- An unending sequence of reads: `12345` first, `67890` ever after. -/
def demo_stream : Nat → List Char :=
  fun i => if i = 0 then "12345".toList else "67890".toList

/-- The `POST` connection with `Content-Length: 10` after its header read. -/
def awaiting_ten : sync_connection Unit Nat :=
  deliver (post_env "10") fresh (completion.read false head_bytes)

/-- The `bytes_transferred` argument of a completion (none for a write). -/
def bytes_transferred : completion → Nat
  | completion.read _ data => data.length
  | completion.write _ => 0

/-- An upper bound of `std::string::max_size()`: no object is larger than
`PTRDIFF_MAX` bytes. -/
def string_max_size (w : Nat) : Nat := 2 ^ (w - 1) - 1

/-- What holds of a request the handler is called with: if it is body-bearing
and its `Content-Length` converts to `K`, the body has `K` bytes, or the body
is within `BUFFER_SIZE` bytes of `2 ^ w`. -/
def body_good (w : Nat) (req : basic_request) : Prop :=
  ∀ it K, req.method.head? = some 'P' → req.headers.find? is_content_length = some it →
    stoul w it.value = some K →
    req.body.length = K ∨ 2 ^ w < req.body.length + BUFFER_SIZE

/-- What holds of the request while a body read for `r` bytes is pending: the
body and `r` add up to the converted `Content-Length`, or to a value within
`BUFFER_SIZE` of `2 ^ w`. -/
def body_track (w : Nat) (req : basic_request) (r : Nat) : Prop :=
  ∀ it K, req.method.head? = some 'P' → req.headers.find? is_content_length = some it →
    stoul w it.value = some K →
    req.body.length + r = K ∨ 2 ^ w < req.body.length + r + BUFFER_SIZE

/-- The invariant of a connection that started with an empty body. -/
def body_inv (w : Nat) (c : sync_connection PS Resp) : Prop :=
  (∀ req ∈ handler_calls c.trace, body_good w req) ∧
    match c.pending with
    | pending_op.read_headers => c.request_.body = []
    | pending_op.read_body_contents r => 0 < r ∧ r < 2 ^ w ∧ body_track w c.request_ r
    | _ => True

/-- The request the handler sees after `Content-Length: 10` and the two reads
`12345` and `67890`. -/
def ten_byte_request : basic_request :=
  { method := "POST".toList, headers := [content_length_header "10"],
    body := "1234567890".toList, source := "127.0.0.1".toList, source_port := 4000 }

/-- The shape of a value that is read as a number: optional white space `ws`,
an optional sign `sign`, a non-empty run of decimal digits `ds` that ends where
`rest` begins, and anything at all in `rest`. -/
def reads_as_number (v ws sign ds rest : List Char) : Prop :=
  v = ws ++ (sign ++ (ds ++ rest)) ∧ (∀ c ∈ ws, isspace c = true) ∧
    (sign = [] ∨ sign = ['+'] ∨ sign = ['-']) ∧ ds ≠ [] ∧
    (∀ d ∈ ds, d.isDigit = true) ∧ (∀ ch, rest.head? = some ch → ch.isDigit = false)

/-- The number a value of that shape is read as: the number of the digit run,
negated modulo `2 ^ w` after a minus sign. -/
def signed_value (w : Nat) (sign ds : List Char) : Nat :=
  if sign = ['-'] then (2 ^ w - digits_value ds) % 2 ^ w else digits_value ds

/-! # Theorems -/

/-! ## Arithmetic on `size_t` -/

theorem size_sub_of_le {w a b : Nat} (ha : a < 2 ^ w) (hb : b ≤ a) :
    size_sub w a b = a - b := by
  unfold size_sub
  generalize 2 ^ w = m at ha ⊢
  have hb2 : b < m := lt_of_le_of_lt hb ha
  rw [Nat.mod_eq_of_lt ha, Nat.mod_eq_of_lt hb2]
  have h1 : a + (m - b) = (a - b) + m := by omega
  rw [h1, Nat.add_mod_right]
  exact Nat.mod_eq_of_lt (by omega)

theorem size_sub_of_lt {w a b : Nat} (hab : a < b) (hb : b < 2 ^ w) :
    size_sub w a b = a + 2 ^ w - b := by
  unfold size_sub
  generalize 2 ^ w = m at hb ⊢
  have ha : a < m := lt_trans hab hb
  rw [Nat.mod_eq_of_lt ha, Nat.mod_eq_of_lt hb]
  have h1 : a + (m - b) = a + m - b := by omega
  rw [h1]
  exact Nat.mod_eq_of_lt (by omega)

/-! ## The body loop when no read carries more than is missing -/

theorem body_read_short (env : collab PS Resp) (c : sync_connection PS Resp) (r : Nat)
    (data : List Char) (hr : r < 2 ^ env.size_bits) (hlt : data.length < r) :
    handle_read_body_contents env c false r data =
      { c with request_ := { c.request_ with body := c.request_.body ++ data },
               pending := pending_op.read_body_contents (r - data.length),
               trace := c.trace ++ [action.async_read_some] } := by
  have hsub : size_sub env.size_bits r data.length = r - data.length :=
    size_sub_of_le hr (Nat.le_of_lt hlt)
  have hne : r - data.length ≠ 0 := by omega
  have hmin : min r data.length = data.length := Nat.min_eq_right (Nat.le_of_lt hlt)
  simp [handle_read_body_contents, hsub, hne, hmin, schedule_read, body_append]

theorem body_read_exact (env : collab PS Resp) (c : sync_connection PS Resp) (r : Nat)
    (data : List Char) (hr : r < 2 ^ env.size_bits) (heq : data.length = r) :
    handle_read_body_contents env c false r data =
      call_handler env
        { c with request_ := { c.request_ with body := c.request_.body ++ data },
                 pending := pending_op.idle } := by
  have hsub : size_sub env.size_bits r data.length = 0 := by
    rw [size_sub_of_le hr (Nat.le_of_eq heq), heq, Nat.sub_self]
  subst heq
  simp [handle_read_body_contents, hsub, body_append]

theorem run_cons (env : collab PS Resp) (c : sync_connection PS Resp) (ev : completion)
    (evs : List completion) : run env c (ev :: evs) = run env (deliver env c ev) evs := rfl

theorem run_append (env : collab PS Resp) (c : sync_connection PS Resp)
    (evs1 evs2 : List completion) :
    run env c (evs1 ++ evs2) = run env (run env c evs1) evs2 := by
  simp [run, List.foldl_append]

theorem run_body_short (env : collab PS Resp) :
    ∀ (chunks : List (List Char)) (c : sync_connection PS Resp) (r : Nat),
      c.pending = pending_op.read_body_contents r → r < 2 ^ env.size_bits →
      chunks.flatten.length < r →
      run env c (chunks.map (completion.read false)) =
        { c with request_ := { c.request_ with body := c.request_.body ++ chunks.flatten },
                 pending := pending_op.read_body_contents (r - chunks.flatten.length),
                 trace := c.trace ++ List.replicate chunks.length action.async_read_some }
  | [], c, r, hp, _, _ => by
    cases c
    simp only [] at hp
    simp [run, hp]
  | ch :: rest, c, r, hp, hr, hlt => by
    have hlen : ch.length + rest.flatten.length < r := by simpa using hlt
    have hch : ch.length < r := by omega
    rw [List.map_cons, run_cons]
    have hd : deliver env c (completion.read false ch) =
        handle_read_body_contents env c false r ch := by
      simp [deliver, hp]
    rw [hd, body_read_short env c r ch hr hch]
    rw [run_body_short env rest _ (r - ch.length) rfl (by omega) (by omega)]
    simp [List.replicate_succ, Nat.sub_sub, List.append_assoc]

/-! ## Bookkeeping on traces -/

theorem handler_calls_append (l1 l2 : List (action Resp)) :
    handler_calls (l1 ++ l2) = handler_calls l1 ++ handler_calls l2 := by
  induction l1 with
  | nil => rfl
  | cons a t ih => cases a <;> simp [handler_calls, ih]

theorem handler_calls_replicate_read (n : Nat) :
    handler_calls (List.replicate n (action.async_read_some : action Resp)) = [] := by
  induction n with
  | zero => rfl
  | succ n ih => simp [List.replicate_succ, handler_calls, ih]

/-! ## The header callback, branch by branch -/

theorem stoul_lt {w : Nat} {s : List Char} {K : Nat} (h : stoul w s = some K) :
    K < 2 ^ w := by
  unfold stoul at h
  simp only [] at h
  split at h
  · exact absurd h (by simp)
  · split at h
    · exact absurd h (by simp)
    · split at h
      · have h2 := Option.some.inj h
        rw [← h2]
        exact Nat.mod_lt _ (Nat.two_pow_pos w)
      · have h2 := Option.some.inj h
        omega

theorem handle_read_headers_done (env : collab PS Resp) (c : sync_connection PS Resp)
    (data : List Char) (hdone : (parsed env c data).done = tribool.true_value) :
    handle_read_headers env c false data =
      headers_done env (after_parse env c data) (parsed env c data).new_start data := by
  simp [handle_read_headers, hdone]

theorem headers_done_length (env : collab PS Resp) (c : sync_connection PS Resp)
    (new_start : Nat) (data : List Char) (it : request_header) (K : Nat)
    (hP : c.request_.method.head? = some 'P')
    (hfind : c.request_.headers.find? is_content_length = some it)
    (hK : stoul env.size_bits it.value = some K) :
    headers_done env c new_start data = after_content_length env c K new_start data := by
  simp [headers_done, hP, hfind, hK]

theorem after_content_length_no_trailing (env : collab PS Resp) (c : sync_connection PS Resp)
    (K : Nat) (data : List Char) (hpos : 0 < K) :
    after_content_length env c K data.length data =
      schedule_read c (pending_op.read_body_contents K) := by
  have h0 : K ≠ 0 := by omega
  simp [after_content_length, h0, hpos]

theorem flatten_length_lt_of_proper {chunks pre suf : List (List Char)}
    (hne : ∀ ch ∈ chunks, ch ≠ []) (hsplit : chunks = pre ++ suf) (hsuf : suf ≠ []) :
    pre.flatten.length < chunks.flatten.length := by
  subst hsplit
  cases suf with
  | nil => exact absurd rfl hsuf
  | cons s t =>
    have hs : s ≠ [] := hne s (by simp)
    have hpos : 0 < s.length := List.length_pos.mpr hs
    simp only [List.flatten_append, List.flatten_cons, List.length_append]
    omega

/-- C1 (streamed body).  A body-bearing request whose headers complete in a read
without trailing bytes and whose `Content-Length` is `K > 0`: for every split of
a `K`-byte body into successive non-empty reads, the handler is called exactly
once more, with the request whose body is the concatenation of the chunks, and
it has not been called after any proper prefix of the chunks. -/
theorem streamed_body (env : collab PS Resp) (c : sync_connection PS Resp)
    (data : List Char) (it : request_header) (K : Nat) (chunks : List (List Char))
    (hpend : c.pending = pending_op.read_headers)
    (hdone : (parsed env c data).done = tribool.true_value)
    (hP : (parsed env c data).request.method.head? = some 'P')
    (hcur : (parsed env c data).new_start = data.length)
    (hbody : (parsed env c data).request.body = [])
    (hfind : (parsed env c data).request.headers.find? is_content_length = some it)
    (hK : stoul env.size_bits it.value = some K) (hpos : 0 < K)
    (hne : ∀ ch ∈ chunks, ch ≠ [])
    (hsum : chunks.flatten.length = K) :
    handler_calls
        (run env c (completion.read false data :: chunks.map (completion.read false))).trace
      = handler_calls c.trace ++
          [{ (parsed env c data).request with body := chunks.flatten }] ∧
    (run env c (completion.read false data :: chunks.map (completion.read false))).pending
      = pending_op.write ∧
    ∀ pre suf, chunks = pre ++ suf → suf ≠ [] →
      handler_calls
          (run env c (completion.read false data :: pre.map (completion.read false))).trace
        = handler_calls c.trace ∧
      (run env c (completion.read false data :: pre.map (completion.read false))).pending
        = pending_op.read_body_contents (K - pre.flatten.length) := by
  have hK2 : K < 2 ^ env.size_bits := stoul_lt hK
  have hfirst : deliver env c (completion.read false data) =
      schedule_read (after_parse env c data) (pending_op.read_body_contents K) := by
    have h1 : deliver env c (completion.read false data) =
        handle_read_headers env c false data := by simp [deliver, hpend]
    rw [h1, handle_read_headers_done env c data hdone,
      headers_done_length env _ _ data it K hP hfind hK, hcur,
      after_content_length_no_trailing env _ K data hpos]
  have hpre : ∀ pre suf, chunks = pre ++ suf → suf ≠ [] →
      run env c (completion.read false data :: pre.map (completion.read false)) =
        { schedule_read (after_parse env c data) (pending_op.read_body_contents K) with
          request_ := { (parsed env c data).request with body := pre.flatten },
          pending := pending_op.read_body_contents (K - pre.flatten.length),
          trace := (c.trace ++ [action.async_read_some]) ++
            List.replicate pre.length action.async_read_some } := by
    intro pre suf hsplit hsuf
    have hlt : pre.flatten.length < K := by
      rw [← hsum]; exact flatten_length_lt_of_proper hne hsplit hsuf
    rw [run_cons, hfirst, run_body_short env pre _ K rfl hK2 hlt]
    simp [schedule_read, after_parse, hbody]
  have hfinal : run env c (completion.read false data :: chunks.map (completion.read false)) =
      call_handler env
        { schedule_read (after_parse env c data) (pending_op.read_body_contents K) with
          request_ := { (parsed env c data).request with body := chunks.flatten },
          pending := pending_op.idle,
          trace := c.trace ++ List.replicate chunks.length action.async_read_some } := by
    rcases List.eq_nil_or_concat chunks with hnil | ⟨init, last, hcat0⟩
    · subst hnil
      simp at hsum
      omega
    · have hcat : chunks = init ++ [last] := by rw [hcat0, List.concat_eq_append]
      have hlast : last ≠ [] := hne last (by simp [hcat])
      have hsum2 : init.flatten.length + last.length = K := by
        rw [← hsum, hcat]; simp
      have hrem : last.length = K - init.flatten.length := by omega
      have hd : deliver env
          (run env c (completion.read false data :: init.map (completion.read false)))
          (completion.read false last) =
          handle_read_body_contents env
            (run env c (completion.read false data :: init.map (completion.read false)))
            false (K - init.flatten.length) last := by
        rw [hpre init [last] hcat (by simp)]
        simp [deliver]
      rw [show List.map (completion.read false) chunks =
          List.map (completion.read false) init ++ [completion.read false last] by
            rw [hcat, List.map_append, List.map_singleton], ← List.cons_append, run_append,
        run_cons, hd,
        body_read_exact env _ (K - init.flatten.length) last (by omega) hrem,
        hpre init [last] hcat (by simp)]
      simp [run, schedule_read, hcat, List.replicate_succ, List.append_assoc]
  refine ⟨?_, ?_, ?_⟩
  · rw [hfinal]
    simp [call_handler, schedule_write, handler_calls_append, handler_calls_replicate_read,
      handler_calls]
  · rw [hfinal]
    rfl
  · intro pre suf hsplit hsuf
    rw [hpre pre suf hsplit hsuf]
    simp [handler_calls_append, handler_calls_replicate_read, handler_calls]

variable {PS Resp : Type}

/-- Witness of C1: `Content-Length: 10`, then "12345" and "67890" in two reads. -/
theorem streamed_body_witness :
    handler_calls
        (run (post_env "10") fresh
          (completion.read false head_bytes ::
            ["12345".toList, "67890".toList].map (completion.read false))).trace
      = handler_calls fresh.trace ++
          [{ (parsed (post_env "10") fresh head_bytes).request with
              body := ["12345".toList, "67890".toList].flatten }] ∧
    (run (post_env "10") fresh
          (completion.read false head_bytes ::
            ["12345".toList, "67890".toList].map (completion.read false))).pending
      = pending_op.write ∧
    ∀ pre suf, ["12345".toList, "67890".toList] = pre ++ suf → suf ≠ [] →
      handler_calls
          (run (post_env "10") fresh
            (completion.read false head_bytes :: pre.map (completion.read false))).trace
        = handler_calls fresh.trace ∧
      (run (post_env "10") fresh
            (completion.read false head_bytes :: pre.map (completion.read false))).pending
        = pending_op.read_body_contents (10 - pre.flatten.length) :=
  streamed_body (post_env "10") fresh head_bytes (content_length_header "10") 10
    ["12345".toList, "67890".toList] rfl rfl rfl rfl rfl rfl (by decide) (by decide)
    (by decide) (by decide)

variable {PS Resp : Type}

theorem flatten_replicate_length (m n : Nat) (x : Char) :
    (List.replicate m (List.replicate n x)).flatten.length = m * n := by
  induction m with
  | zero => simp
  | succ m ih =>
    rw [List.replicate_succ, List.flatten_cons, List.length_append, ih, List.length_replicate]
    ring

theorem overrun_state :
    run (post_env "1") fresh [completion.read false head_bytes, filler 2] =
      { parser_ := (),
        request_ := { method := "POST".toList, headers := [content_length_header "1"],
                      body := ['x'], source := "127.0.0.1".toList, source_port := 4000 },
        response_ := 0,
        pending := pending_op.read_body_contents (2 ^ 64 - 1),
        trace := [action.async_read_some, action.async_read_some, action.async_read_some] } := by
  rfl

theorem overrun_trace_split :
    overrun_trace =
      [completion.read false head_bytes, filler 2] ++
        ((List.replicate 1023 'x' ::
            List.replicate (2 ^ 54 - 2) (List.replicate 1024 'x')).map (completion.read false) ++
          [filler 1024]) := by
  have h : (2 ^ 54 - 1 : Nat) = (2 ^ 54 - 2) + 1 := by norm_num
  unfold overrun_trace
  rw [h, List.replicate_succ', List.map_cons, List.map_replicate]
  rfl

theorem handler_calls_call_handler (env : collab PS Resp) (c : sync_connection PS Resp) :
    handler_calls (call_handler env c).trace = handler_calls c.trace ++ [c.request_] := by
  simp [call_handler, schedule_write, handler_calls_append, handler_calls]

theorem run_body_exact (env : collab PS Resp) (chunks : List (List Char)) (last : List Char)
    (c : sync_connection PS Resp) (r : Nat)
    (hp : c.pending = pending_op.read_body_contents r) (hr : r < 2 ^ env.size_bits)
    (hpos : 0 < last.length) (hsum : chunks.flatten.length + last.length = r) :
    run env c (chunks.map (completion.read false) ++ [completion.read false last]) =
      call_handler env
        { c with request_ := { c.request_ with
                               body := (c.request_.body ++ chunks.flatten) ++ last },
                 pending := pending_op.idle,
                 trace := c.trace ++ List.replicate chunks.length action.async_read_some } := by
  rw [run_append, run_body_short env chunks c r hp hr (by omega), run_cons]
  have hd : ∀ c2 : sync_connection PS Resp,
      c2.pending = pending_op.read_body_contents (r - chunks.flatten.length) →
      deliver env c2 (completion.read false last) =
        handle_read_body_contents env c2 false (r - chunks.flatten.length) last := by
    intro c2 h2
    simp [deliver, h2]
  rw [hd _ rfl, body_read_exact env _ _ last (by omega) (by omega)]
  rfl

theorem overrun_generic (chunks : List (List Char))
    (hlen : chunks.flatten.length = 2 ^ 64 - 1 - 1024) :
    ∃ req, handler_calls
        (run (post_env "1") fresh
          ([completion.read false head_bytes, filler 2] ++
            (chunks.map (completion.read false) ++ [filler 1024]))).trace = [req] ∧
      req.method.head? = some 'P' ∧
      (req.headers.find? is_content_length).map (fun h => stoul 64 h.value) = some (some 1) ∧
      req.body.length = 2 ^ 64 := by
  have hbits : (post_env "1").size_bits = 64 := rfl
  have hfill : (List.replicate 1024 'x').length = 1024 := List.length_replicate _ _
  rw [run_append, overrun_state, filler,
    run_body_exact (post_env "1") chunks (List.replicate 1024 'x') _ (2 ^ 64 - 1) rfl
      (by rw [hbits]; norm_num) (by rw [hfill]; norm_num) (by rw [hlen, hfill]; norm_num),
    handler_calls_call_handler]
  refine ⟨{ method := "POST".toList, headers := [content_length_header "1"],
            body := (['x'] ++ chunks.flatten) ++ List.replicate 1024 'x',
            source := "127.0.0.1".toList, source_port := 4000 }, ?_, ?_, ?_, ?_⟩
  · have h3 : handler_calls
        ([action.async_read_some, action.async_read_some, action.async_read_some] ++
          List.replicate chunks.length (action.async_read_some : action Nat)) = [] := by
      rw [handler_calls_append, handler_calls_replicate_read]
      rfl
    rw [h3]
    rfl
  · rfl
  · show Option.map (fun h => stoul 64 h.value)
      (List.find? is_content_length [content_length_header "1"]) = some (some 1)
    decide
  · simp only [List.length_append, hlen, hfill, List.length_cons, List.length_nil]
    norm_num

/-- Without a bound on the length of the body the count of bytes is not exact:
on `overrun_trace`, whose reads are all successful and within the window, the
request is body-bearing with `Content-Length` 1 and the handler is called with
a body of `2 ^ 64` bytes.  No `std::string` holds that many bytes: the length
of a string is at most `string_max_size`. -/
theorem body_length_after_overrun :
    (∀ ev ∈ overrun_trace, ∃ d, ev = completion.read false d ∧ d.length ≤ BUFFER_SIZE) ∧
    ∃ req, handler_calls (run (post_env "1") fresh overrun_trace).trace = [req] ∧
      req.method.head? = some 'P' ∧
      (req.headers.find? is_content_length).map (fun h => stoul 64 h.value) = some (some 1) ∧
      req.body.length = 2 ^ 64 := by
  constructor
  · intro ev hev
    unfold overrun_trace at hev
    simp only [List.mem_cons, List.mem_replicate] at hev
    rcases hev with h | h | h | ⟨_, h⟩
    · exact ⟨head_bytes, h, by decide⟩
    · exact ⟨List.replicate 2 'x', h, by decide⟩
    · exact ⟨List.replicate 1023 'x', h, by
        rw [List.length_replicate, BUFFER_SIZE]; norm_num⟩
    · exact ⟨List.replicate 1024 'x', h, by
        rw [List.length_replicate, BUFFER_SIZE]⟩
  · have hlen : (List.replicate 1023 'x' ::
          List.replicate (2 ^ 54 - 2) (List.replicate 1024 'x')).flatten.length
        = 2 ^ 64 - 1 - 1024 := by
      rw [List.flatten_cons, List.length_append, List.length_replicate,
        flatten_replicate_length]
      norm_num
    rw [overrun_trace_split]
    exact overrun_generic _ hlen

variable {PS Resp : Type}

/-- C3 (the remaining-bytes counter), evaluated where a read brings more bytes
than remain.  With 5 bytes remaining a body read of 10 bytes leaves the counter
at `2 ^ 64 - 5`: it has grown, it is not zero, another read is issued and the
handler is not called.  The subtraction in the header callback wraps in the
same way when 10 bytes follow the headers of a 5-byte body. -/
theorem remaining_counter_wraps :
    (run (post_env "5") fresh [completion.read false head_bytes]).pending
      = pending_op.read_body_contents 5 ∧
    (run (post_env "5") fresh
        [completion.read false head_bytes, completion.read false "1234567890".toList]).pending
      = pending_op.read_body_contents (2 ^ 64 - 5) ∧
    5 < 2 ^ 64 - 5 ∧
    handler_calls (run (post_env "5") fresh
        [completion.read false head_bytes, completion.read false "1234567890".toList]).trace
      = [] ∧
    reads_issued (run (post_env "5") fresh
        [completion.read false head_bytes, completion.read false "1234567890".toList]).trace
      = reads_issued (run (post_env "5") fresh [completion.read false head_bytes]).trace + 1 ∧
    (run (post_env "5") fresh
        [completion.read false (head_bytes ++ "1234567890".toList)]).pending
      = pending_op.read_body_contents (2 ^ 64 - 5) := by
  decide

/-- C4 (over-delivery), evaluated on a header-completing read that carries 10
bytes past the cursor for a `Content-Length` of 5: all 10 bytes are appended to
the body.  The same 10 bytes in a body read leave a body of 5 bytes. -/
theorem header_read_appends_all_trailing_bytes :
    (run (post_env "5") fresh
        [completion.read false (head_bytes ++ "1234567890".toList)]).request_.body
      = "1234567890".toList ∧
    (run (post_env "5") fresh
        [completion.read false head_bytes, completion.read false "1234567890".toList]).request_.body
      = "12345".toList := by
  decide

variable {PS Resp : Type}

/-! ## After the response has been scheduled -/

theorem reads_issued_append (l1 l2 : List (action Resp)) :
    reads_issued (l1 ++ l2) = reads_issued l1 + reads_issued l2 := by
  induction l1 with
  | nil => simp [reads_issued]
  | cons a t ih =>
    cases a <;> simp [reads_issued, ih]
    omega

theorem writes_issued_append (l1 l2 : List (action Resp)) :
    writes_issued (l1 ++ l2) = writes_issued l1 ++ writes_issued l2 := by
  induction l1 with
  | nil => rfl
  | cons a t ih => cases a <;> simp [writes_issued, ih]

theorem deliver_after_write (env : collab PS Resp) (c : sync_connection PS Resp)
    (ev : completion) (h : c.pending = pending_op.write ∨ c.pending = pending_op.idle) :
    ((deliver env c ev).pending = pending_op.write ∨
        (deliver env c ev).pending = pending_op.idle) ∧
      (deliver env c ev).request_ = c.request_ ∧
      (deliver env c ev).response_ = c.response_ ∧
      handler_calls (deliver env c ev).trace = handler_calls c.trace ∧
      reads_issued (deliver env c ev).trace = reads_issued c.trace ∧
      writes_issued (deliver env c ev).trace = writes_issued c.trace := by
  rcases h with h | h <;> cases ev with
  | read ec data => simp [deliver, h]
  | write ec =>
    cases ec <;>
      simp [deliver, h, handle_write, handler_calls_append, reads_issued_append,
        writes_issued_append, handler_calls, reads_issued, writes_issued]

theorem run_after_write (env : collab PS Resp) :
    ∀ (evs : List completion) (c : sync_connection PS Resp),
      c.pending = pending_op.write ∨ c.pending = pending_op.idle →
      ((run env c evs).pending = pending_op.write ∨
          (run env c evs).pending = pending_op.idle) ∧
        (run env c evs).request_ = c.request_ ∧
        (run env c evs).response_ = c.response_ ∧
        handler_calls (run env c evs).trace = handler_calls c.trace ∧
        reads_issued (run env c evs).trace = reads_issued c.trace ∧
        writes_issued (run env c evs).trace = writes_issued c.trace
  | [], c, h => ⟨h, rfl, rfl, rfl, rfl, rfl⟩
  | ev :: evs, c, h => by
    obtain ⟨h1, h2, h3, h4, h5, h6⟩ := deliver_after_write env c ev h
    obtain ⟨k1, k2, k3, k4, k5, k6⟩ := run_after_write env evs (deliver env c ev) h1
    rw [run_cons]
    exact ⟨k1, k2.trans h2, k3.trans h3, k4.trans h4, k5.trans h5, k6.trans h6⟩

theorem deliver_read_headers (env : collab PS Resp) (c : sync_connection PS Resp)
    (data : List Char) (hpend : c.pending = pending_op.read_headers)
    (hdone : (parsed env c data).done = tribool.true_value) :
    deliver env c (completion.read false data) =
      headers_done env (after_parse env c data) (parsed env c data).new_start data := by
  rw [← handle_read_headers_done env c data hdone]
  simp [deliver, hpend]

/-- C5 (no-body methods).  When the parsed method does not start with `P`, a
header-complete read calls the handler with the parsed request and issues the
write of its response, whatever the headers are; the body is the one the parser
left, no read is issued then or later, and no body read is ever pending. -/
theorem no_body_method (env : collab PS Resp) (c : sync_connection PS Resp)
    (data : List Char) (hpend : c.pending = pending_op.read_headers)
    (hdone : (parsed env c data).done = tribool.true_value)
    (hP : (parsed env c data).request.method.head? ≠ some 'P') :
    (deliver env c (completion.read false data)).trace =
        c.trace ++ [action.handler_call (parsed env c data).request,
          action.async_write (env.handler_ (parsed env c data).request c.response_)] ∧
      (deliver env c (completion.read false data)).pending = pending_op.write ∧
      ∀ evs : List completion,
        (run env c (completion.read false data :: evs)).request_ =
            (parsed env c data).request ∧
          reads_issued (run env c (completion.read false data :: evs)).trace =
            reads_issued c.trace ∧
          ∀ n, (run env c (completion.read false data :: evs)).pending ≠
            pending_op.read_body_contents n := by
  have hstep : deliver env c (completion.read false data) =
      call_handler env (after_parse env c data) := by
    rw [deliver_read_headers env c data hpend hdone]
    have hP2 : (after_parse env c data).request_.method.head? ≠ some 'P' := hP
    simp [headers_done, hP2]
  have hw : (call_handler env (after_parse env c data)).pending = pending_op.write := rfl
  refine ⟨?_, ?_, ?_⟩
  · rw [hstep]
    simp [call_handler, schedule_write, after_parse]
  · rw [hstep, hw]
  · intro evs
    obtain ⟨k1, k2, _, _, k5, _⟩ :=
      run_after_write env evs (call_handler env (after_parse env c data)) (Or.inl hw)
    rw [run_cons, hstep]
    refine ⟨k2, ?_, ?_⟩
    · rw [k5]
      simp [call_handler, schedule_write, after_parse, reads_issued_append, reads_issued]
    · intro n hn
      rcases k1 with k | k <;> rw [k] at hn <;> cases hn

/-- Witness of C5: a `GET` request that carries `Content-Length: 10`. -/
theorem no_body_method_witness :
    (deliver (demo_env "GET".toList [content_length_header "10"] 7) fresh
        (completion.read false head_bytes)).trace =
        fresh.trace ++
          [action.handler_call
            (parsed (demo_env "GET".toList [content_length_header "10"] 7) fresh
              head_bytes).request,
          action.async_write
            ((demo_env "GET".toList [content_length_header "10"] 7).handler_
              (parsed (demo_env "GET".toList [content_length_header "10"] 7) fresh
                head_bytes).request fresh.response_)] ∧
      (deliver (demo_env "GET".toList [content_length_header "10"] 7) fresh
        (completion.read false head_bytes)).pending = pending_op.write ∧
      ∀ evs : List completion,
        (run (demo_env "GET".toList [content_length_header "10"] 7) fresh
            (completion.read false head_bytes :: evs)).request_ =
            (parsed (demo_env "GET".toList [content_length_header "10"] 7) fresh
              head_bytes).request ∧
          reads_issued (run (demo_env "GET".toList [content_length_header "10"] 7) fresh
            (completion.read false head_bytes :: evs)).trace = reads_issued fresh.trace ∧
          ∀ n, (run (demo_env "GET".toList [content_length_header "10"] 7) fresh
            (completion.read false head_bytes :: evs)).pending ≠
            pending_op.read_body_contents n :=
  no_body_method (demo_env "GET".toList [content_length_header "10"] 7) fresh head_bytes
    rfl rfl (by decide)

variable {PS Resp : Type}

/-! ## The header name test -/

theorem toLower_eq_iff (a b : Char) (hb : is_ascii_upper b = false) :
    a.toLower = b ↔ ascii_ieq_char a b = true := by
  unfold ascii_ieq_char Char.toLower
  by_cases ha : 65 ≤ a.toNat ∧ a.toNat ≤ 90
  · have hau : is_ascii_upper a = true := by simp [is_ascii_upper, ha]
    have hne : a ≠ b := by
      intro h
      rw [h, hb] at hau
      cases hau
    simp [ha, hau, hb, hne]
    exact eq_comm
  · have hau : is_ascii_upper a = false := by simp [is_ascii_upper, ha]
    simp [ha, hau, hb]

theorem to_lower_copy_eq_iff :
    ∀ (s t : List Char), (∀ ch ∈ t, is_ascii_upper ch = false) →
      (to_lower_copy s = t ↔ ascii_ieq s t = true)
  | [], [], _ => by simp [to_lower_copy, ascii_ieq]
  | [], _ :: _, _ => by simp [to_lower_copy, ascii_ieq]
  | _ :: _, [], _ => by simp [to_lower_copy, ascii_ieq]
  | a :: s, b :: t, h => by
    have hb : is_ascii_upper b = false := h b (by simp)
    have ht : ∀ ch ∈ t, is_ascii_upper ch = false := fun ch hch => h ch (by simp [hch])
    have ih := to_lower_copy_eq_iff s t ht
    simp only [to_lower_copy] at ih
    simp [to_lower_copy, ascii_ieq, toLower_eq_iff a b hb, ih]

theorem is_content_length_eq (h : request_header) :
    is_content_length h = ascii_ieq h.name content_length_name := by
  have hlow : ∀ ch ∈ content_length_name, is_ascii_upper ch = false := by decide
  have hiff := to_lower_copy_eq_iff h.name content_length_name hlow
  unfold is_content_length
  cases hx : ascii_ieq h.name content_length_name
  · have : ¬ to_lower_copy h.name = content_length_name := by
      intro hc
      rw [hiff.mp hc] at hx
      cases hx
    simpa [content_length_name] using this
  · simpa [content_length_name] using hiff.mpr hx

theorem find_content_length_none {headers : List request_header}
    (h : ∀ hd ∈ headers, ascii_ieq hd.name content_length_name = false) :
    headers.find? is_content_length = none := by
  rw [List.find?_eq_none]
  intro hd hmem
  rw [is_content_length_eq, h hd hmem]
  simp

variable {PS Resp : Type}

/-! ## The stock reply -/

theorem bad_request_outcome (env : collab PS Resp) (c : sync_connection PS Resp)
    (data : List Char)
    (hstep : deliver env c (completion.read false data) =
      reply_bad_request env (after_parse env c data)) :
    (deliver env c (completion.read false data)).response_ = env.stock_reply_bad_request ∧
      (deliver env c (completion.read false data)).trace =
        c.trace ++ [action.async_write env.stock_reply_bad_request] ∧
      (deliver env c (completion.read false data)).pending = pending_op.write ∧
      ∀ evs : List completion,
        handler_calls (run env c (completion.read false data :: evs)).trace =
            handler_calls c.trace ∧
          reads_issued (run env c (completion.read false data :: evs)).trace =
            reads_issued c.trace ∧
          (run env c (completion.read false data :: evs)).response_ =
            env.stock_reply_bad_request := by
  have hw : (reply_bad_request env (after_parse env c data)).pending = pending_op.write := rfl
  refine ⟨by rw [hstep]; rfl, by rw [hstep]; rfl, by rw [hstep, hw], ?_⟩
  intro evs
  obtain ⟨_, _, k3, k4, k5, _⟩ :=
    run_after_write env evs (reply_bad_request env (after_parse env c data)) (Or.inl hw)
  rw [run_cons, hstep, k3, k4, k5]
  simp [reply_bad_request, schedule_write, after_parse, handler_calls_append,
    reads_issued_append, handler_calls, reads_issued]

theorem takeWhile_isDigit_nil {l : List Char} (h : ∀ ch ∈ l, ch.isDigit = false) :
    l.takeWhile Char.isDigit = [] := by
  cases l with
  | nil => rfl
  | cons a t => simp [List.takeWhile, h a (by simp)]

theorem strip_sign_subset (l : List Char) : ∀ ch ∈ (strip_sign l).2, ch ∈ l := by
  intro ch hch
  unfold strip_sign at hch
  split at hch
  · exact List.mem_cons_of_mem _ hch
  · exact List.mem_cons_of_mem _ hch
  · exact hch

theorem stoul_none_of_no_digit (w : Nat) {s : List Char}
    (h : ∀ ch ∈ s, ch.isDigit = false) : stoul w s = none := by
  have h2 : ∀ ch ∈ (strip_sign (s.dropWhile isspace)).2, ch.isDigit = false := by
    intro ch hch
    exact h ch ((List.dropWhile_sublist isspace).subset (strip_sign_subset _ ch hch))
  simp [stoul, takeWhile_isDigit_nil h2]

/-- C6 (missing length).  A body-bearing request without a header named
`Content-Length` up to ASCII case: the header-complete read sets the response
to the stock 400 reply and issues its write, and the handler is not called then
or at any later completion. -/
theorem missing_content_length (env : collab PS Resp) (c : sync_connection PS Resp)
    (data : List Char) (hpend : c.pending = pending_op.read_headers)
    (hdone : (parsed env c data).done = tribool.true_value)
    (hP : (parsed env c data).request.method.head? = some 'P')
    (hnone : ∀ hd ∈ (parsed env c data).request.headers,
      ascii_ieq hd.name content_length_name = false) :
    (deliver env c (completion.read false data)).response_ = env.stock_reply_bad_request ∧
      (deliver env c (completion.read false data)).trace =
        c.trace ++ [action.async_write env.stock_reply_bad_request] ∧
      (deliver env c (completion.read false data)).pending = pending_op.write ∧
      ∀ evs : List completion,
        handler_calls (run env c (completion.read false data :: evs)).trace =
            handler_calls c.trace ∧
          reads_issued (run env c (completion.read false data :: evs)).trace =
            reads_issued c.trace ∧
          (run env c (completion.read false data :: evs)).response_ =
            env.stock_reply_bad_request := by
  apply bad_request_outcome
  rw [deliver_read_headers env c data hpend hdone]
  have hP2 : (after_parse env c data).request_.method.head? = some 'P' := hP
  have hf : (after_parse env c data).request_.headers.find? is_content_length = none :=
    find_content_length_none hnone
  simp [headers_done, hP2, hf]

/-- Witness of C6: `POST` with a `Host` header only. -/
theorem missing_content_length_witness :
    (deliver (demo_env "POST".toList [⟨"Host".toList, "a".toList⟩] 7) fresh
        (completion.read false head_bytes)).response_ = 400 ∧
      (deliver (demo_env "POST".toList [⟨"Host".toList, "a".toList⟩] 7) fresh
        (completion.read false head_bytes)).trace =
        fresh.trace ++ [action.async_write 400] ∧
      (deliver (demo_env "POST".toList [⟨"Host".toList, "a".toList⟩] 7) fresh
        (completion.read false head_bytes)).pending = pending_op.write ∧
      ∀ evs : List completion,
        handler_calls (run (demo_env "POST".toList [⟨"Host".toList, "a".toList⟩] 7) fresh
            (completion.read false head_bytes :: evs)).trace = handler_calls fresh.trace ∧
          reads_issued (run (demo_env "POST".toList [⟨"Host".toList, "a".toList⟩] 7) fresh
            (completion.read false head_bytes :: evs)).trace = reads_issued fresh.trace ∧
          (run (demo_env "POST".toList [⟨"Host".toList, "a".toList⟩] 7) fresh
            (completion.read false head_bytes :: evs)).response_ = 400 :=
  missing_content_length (demo_env "POST".toList [⟨"Host".toList, "a".toList⟩] 7) fresh
    head_bytes rfl rfl rfl (by decide)

/-- C8 (invalid length).  A body-bearing request whose first `Content-Length`
header has a value without any decimal digit: the header-complete read sets the
response to the stock 400 reply and issues its write, and the handler is not
called then or at any later completion. -/
theorem invalid_content_length (env : collab PS Resp) (c : sync_connection PS Resp)
    (data : List Char) (it : request_header)
    (hpend : c.pending = pending_op.read_headers)
    (hdone : (parsed env c data).done = tribool.true_value)
    (hP : (parsed env c data).request.method.head? = some 'P')
    (hfind : (parsed env c data).request.headers.find? is_content_length = some it)
    (hnum : ∀ ch ∈ it.value, ch.isDigit = false) :
    (deliver env c (completion.read false data)).response_ = env.stock_reply_bad_request ∧
      (deliver env c (completion.read false data)).trace =
        c.trace ++ [action.async_write env.stock_reply_bad_request] ∧
      (deliver env c (completion.read false data)).pending = pending_op.write ∧
      ∀ evs : List completion,
        handler_calls (run env c (completion.read false data :: evs)).trace =
            handler_calls c.trace ∧
          reads_issued (run env c (completion.read false data :: evs)).trace =
            reads_issued c.trace ∧
          (run env c (completion.read false data :: evs)).response_ =
            env.stock_reply_bad_request := by
  apply bad_request_outcome
  rw [deliver_read_headers env c data hpend hdone]
  have hP2 : (after_parse env c data).request_.method.head? = some 'P' := hP
  have hf : (after_parse env c data).request_.headers.find? is_content_length = some it :=
    hfind
  simp [headers_done, hP2, hf, stoul_none_of_no_digit env.size_bits hnum]

/-- Witness of C8: `Content-Length: abc`. -/
theorem invalid_content_length_witness :
    (deliver (post_env "abc") fresh (completion.read false head_bytes)).response_ = 400 ∧
      (deliver (post_env "abc") fresh (completion.read false head_bytes)).trace =
        fresh.trace ++ [action.async_write 400] ∧
      (deliver (post_env "abc") fresh (completion.read false head_bytes)).pending =
        pending_op.write ∧
      ∀ evs : List completion,
        handler_calls (run (post_env "abc") fresh
            (completion.read false head_bytes :: evs)).trace = handler_calls fresh.trace ∧
          reads_issued (run (post_env "abc") fresh
            (completion.read false head_bytes :: evs)).trace = reads_issued fresh.trace ∧
          (run (post_env "abc") fresh
            (completion.read false head_bytes :: evs)).response_ = 400 :=
  invalid_content_length (post_env "abc") fresh head_bytes (content_length_header "abc")
    rfl rfl rfl rfl (by decide)

variable {PS Resp : Type}

/-! ## What `stoul` converts -/

theorem not_isspace_of_isDigit {d : Char} (hd : d.isDigit = true) : isspace d = false := by
  cases hs : isspace d
  · rfl
  · simp only [isspace, Bool.or_eq_true, decide_eq_true_eq] at hs
    rcases hs with ((((h | h) | h) | h) | h) | h <;>
      (subst h; exact absurd hd (by decide))

theorem strip_sign_of_isDigit {d : Char} (t : List Char) (hd : d.isDigit = true) :
    strip_sign (d :: t) = (false, d :: t) := by
  unfold strip_sign
  split
  · rename_i heq
    have h := (List.cons.inj heq).1
    subst h
    exact absurd hd (by decide)
  · rename_i heq
    have h := (List.cons.inj heq).1
    subst h
    exact absurd hd (by decide)
  · rfl

theorem takeWhile_digit_run (ds rest : List Char) (hds : ∀ d ∈ ds, d.isDigit = true)
    (hrest : ∀ ch, rest.head? = some ch → ch.isDigit = false) :
    (ds ++ rest).takeWhile Char.isDigit = ds := by
  rw [List.takeWhile_append_of_pos hds]
  cases rest with
  | nil => simp
  | cons a t => simp [hrest a rfl]

theorem stoul_digit_run (w : Nat) (ds rest : List Char) (hne : ds ≠ [])
    (hds : ∀ d ∈ ds, d.isDigit = true)
    (hrest : ∀ ch, rest.head? = some ch → ch.isDigit = false)
    (hlt : digits_value ds < 2 ^ w) :
    stoul w (ds ++ rest) = some (digits_value ds) := by
  cases ds with
  | nil => exact absurd rfl hne
  | cons d t =>
    have hd : d.isDigit = true := hds d (by simp)
    have hsp : isspace d = false := not_isspace_of_isDigit hd
    have hdrop : (d :: t ++ rest).dropWhile isspace = d :: (t ++ rest) := by
      simp [List.dropWhile, hsp]
    have htake : (d :: (t ++ rest)).takeWhile Char.isDigit = d :: t :=
      takeWhile_digit_run (d :: t) rest hds hrest
    have hnot : ¬ 2 ^ w ≤ digits_value (d :: t) := by omega
    simp only [stoul, hdrop, strip_sign_of_isDigit (t ++ rest) hd, htake]
    simp [hnot]

theorem after_content_length_trace (env : collab PS Resp) (c : sync_connection PS Resp)
    (K new_start : Nat) (data : List Char) :
    (after_content_length env c K new_start data).trace = c.trace ++ [action.async_read_some] ∨
      ∃ req resp, (after_content_length env c K new_start data).trace =
        c.trace ++ [action.handler_call req, action.async_write resp] := by
  unfold after_content_length
  simp only []
  split_ifs <;> simp [schedule_read, call_handler, schedule_write, body_append]

theorem after_content_length_ne_bad_request (env : collab PS Resp)
    (c : sync_connection PS Resp) (K new_start : Nat) (data : List Char) :
    after_content_length env c K new_start data ≠ reply_bad_request env c := by
  intro h
  have ht : (after_content_length env c K new_start data).trace =
      c.trace ++ [action.async_write env.stock_reply_bad_request] := by
    rw [h]
    rfl
  rcases after_content_length_trace env c K new_start data with h1 | ⟨req, resp, h1⟩
  · rw [h1] at ht
    simp at ht
  · rw [h1] at ht
    simp at ht

/-- C7, as stated, fails: for a `POST` request the values `10abc`, ` 10`, `+10`
and `-1` are converted, no 400 is written, and a body read is issued. -/
theorem trailing_garbage_is_accepted :
    (deliver (post_env "10abc") fresh (completion.read false head_bytes)).pending
      = pending_op.read_body_contents 10 ∧
    (deliver (post_env "10abc") fresh (completion.read false head_bytes)).trace
      = fresh.trace ++ [action.async_read_some] ∧
    (deliver (post_env " 10") fresh (completion.read false head_bytes)).pending
      = pending_op.read_body_contents 10 ∧
    (deliver (post_env "+10") fresh (completion.read false head_bytes)).pending
      = pending_op.read_body_contents 10 ∧
    (deliver (post_env "-1") fresh (completion.read false head_bytes)).pending
      = pending_op.read_body_contents (2 ^ 64 - 1) := by
  decide

/-- C9 (zero-length body).  A body-bearing request whose `Content-Length`
converts to 0 and whose body is empty after the header parse: the
header-complete read calls the handler with the empty body and issues the
write, whatever bytes follow the headers in that read; no read is issued then
or later. -/
theorem zero_length_body (env : collab PS Resp) (c : sync_connection PS Resp)
    (data : List Char) (it : request_header)
    (hpend : c.pending = pending_op.read_headers)
    (hdone : (parsed env c data).done = tribool.true_value)
    (hP : (parsed env c data).request.method.head? = some 'P')
    (hfind : (parsed env c data).request.headers.find? is_content_length = some it)
    (hzero : stoul env.size_bits it.value = some 0)
    (hbody : (parsed env c data).request.body = []) :
    (deliver env c (completion.read false data)).trace =
        c.trace ++ [action.handler_call { (parsed env c data).request with body := [] },
          action.async_write (env.handler_ (parsed env c data).request c.response_)] ∧
      (deliver env c (completion.read false data)).pending = pending_op.write ∧
      (deliver env c (completion.read false data)).request_.body = [] ∧
      ∀ evs : List completion,
        reads_issued (run env c (completion.read false data :: evs)).trace =
          reads_issued c.trace := by
  have hP2 : (after_parse env c data).request_.method.head? = some 'P' := hP
  have hf : (after_parse env c data).request_.headers.find? is_content_length = some it :=
    hfind
  have hstep : deliver env c (completion.read false data) =
      call_handler env (after_parse env c data) := by
    rw [deliver_read_headers env c data hpend hdone,
      headers_done_length env _ _ data it 0 hP2 hf hzero]
    simp [after_content_length]
  have hw : (call_handler env (after_parse env c data)).pending = pending_op.write := rfl
  have hreq : ({ (parsed env c data).request with body := [] } : basic_request) =
      (parsed env c data).request := by
    rw [← hbody]
  refine ⟨?_, by rw [hstep, hw], by rw [hstep]; exact hbody, ?_⟩
  · rw [hstep, hreq]
    simp [call_handler, schedule_write, after_parse]
  · intro evs
    obtain ⟨_, _, _, _, k5, _⟩ :=
      run_after_write env evs (call_handler env (after_parse env c data)) (Or.inl hw)
    rw [run_cons, hstep, k5]
    simp [call_handler, schedule_write, after_parse, reads_issued_append, reads_issued]

/-- Witness of C9: `Content-Length: 0`, with two bytes after the headers. -/
theorem zero_length_body_witness :
    (deliver (post_env "0") fresh (completion.read false (head_bytes ++ ['z', 'z']))).trace =
        fresh.trace ++
          [action.handler_call
            { (parsed (post_env "0") fresh (head_bytes ++ ['z', 'z'])).request with body := [] },
          action.async_write
            ((post_env "0").handler_
              (parsed (post_env "0") fresh (head_bytes ++ ['z', 'z'])).request
              fresh.response_)] ∧
      (deliver (post_env "0") fresh
        (completion.read false (head_bytes ++ ['z', 'z']))).pending = pending_op.write ∧
      (deliver (post_env "0") fresh
        (completion.read false (head_bytes ++ ['z', 'z']))).request_.body = [] ∧
      ∀ evs : List completion,
        reads_issued (run (post_env "0") fresh
          (completion.read false (head_bytes ++ ['z', 'z']) :: evs)).trace =
          reads_issued fresh.trace :=
  zero_length_body (post_env "0") fresh (head_bytes ++ ['z', 'z'])
    (content_length_header "0") rfl rfl rfl rfl (by decide) rfl

/-- C10 (`Content-Length` lookup).  The lookup reports absence exactly when no
header name equals `content-length` up to ASCII case; it returns `it` exactly
when `it` is the first header of the list with such a name; and the body
framing of a body-bearing request is decided by the value of that first header,
whatever headers follow it. -/
theorem content_length_lookup (headers : List request_header) :
    (headers.find? is_content_length = none ↔
      ∀ hd ∈ headers, ascii_ieq hd.name content_length_name = false) ∧
    (∀ it, headers.find? is_content_length = some it ↔
      ∃ pre post, headers = pre ++ it :: post ∧
        (∀ hd ∈ pre, ascii_ieq hd.name content_length_name = false) ∧
        ascii_ieq it.name content_length_name = true) ∧
    ∀ (env : collab PS Resp) (c : sync_connection PS Resp) (new_start : Nat)
      (data : List Char) (pre post : List request_header) (it : request_header),
      c.request_.method.head? = some 'P' → c.request_.headers = headers →
      headers = pre ++ it :: post →
      (∀ hd ∈ pre, ascii_ieq hd.name content_length_name = false) →
      ascii_ieq it.name content_length_name = true →
      headers_done env c new_start data =
        match stoul env.size_bits it.value with
        | none => reply_bad_request env c
        | some content_length => after_content_length env c content_length new_start data := by
  have hsome : ∀ it, headers.find? is_content_length = some it ↔
      ∃ pre post, headers = pre ++ it :: post ∧
        (∀ hd ∈ pre, ascii_ieq hd.name content_length_name = false) ∧
        ascii_ieq it.name content_length_name = true := by
    intro it
    rw [List.find?_eq_some]
    constructor
    · rintro ⟨hit, pre, post, hcat, hpre⟩
      refine ⟨pre, post, hcat, ?_, ?_⟩
      · intro hd hmem
        have := hpre hd hmem
        rw [is_content_length_eq] at this
        simpa using this
      · rw [← is_content_length_eq]
        exact hit
    · rintro ⟨pre, post, hcat, hpre, hit⟩
      refine ⟨by rw [is_content_length_eq]; exact hit, pre, post, hcat, ?_⟩
      intro hd hmem
      rw [is_content_length_eq, hpre hd hmem]
      rfl
  refine ⟨?_, hsome, ?_⟩
  · rw [List.find?_eq_none]
    constructor
    · intro h hd hmem
      have := h hd hmem
      rw [is_content_length_eq] at this
      simpa using this
    · intro h hd hmem
      rw [is_content_length_eq, h hd hmem]
      simp
  · intro env c new_start data pre post it hP hh hcat hpre hit
    have hf : c.request_.headers.find? is_content_length = some it := by
      rw [hh]
      exact (hsome it).mpr ⟨pre, post, hcat, hpre, hit⟩
    simp only [headers_done, hP, hf, if_true]

/-- Witness of C10: of two matching headers the first one is found. -/
theorem content_length_lookup_witness :
    demo_headers.find? is_content_length =
      some { name := "CONTENT-length".toList, value := "3".toList } :=
  ((@content_length_lookup Unit Nat demo_headers).2.1
      { name := "CONTENT-length".toList, value := "3".toList }).mpr
    ⟨[{ name := "Host".toList, value := "a".toList }],
      [{ name := "Content-Length".toList, value := "7".toList }], rfl, by decide, by decide⟩

variable {PS Resp : Type}

/-! ## The shape of one callback -/

theorem after_content_length_shape (env : collab PS Resp) (c : sync_connection PS Resp)
    (K new_start : Nat) (data : List Char) :
    ((after_content_length env c K new_start data).trace =
        c.trace ++ [action.async_read_some] ∧
      ∃ n, (after_content_length env c K new_start data).pending =
        pending_op.read_body_contents n) ∨
    ((after_content_length env c K new_start data).pending = pending_op.write ∧
      ∃ req resp, (after_content_length env c K new_start data).trace =
        c.trace ++ [action.handler_call req, action.async_write resp]) := by
  unfold after_content_length
  simp only []
  split_ifs <;> simp [schedule_read, call_handler, schedule_write, body_append]

theorem headers_done_shape (env : collab PS Resp) (c : sync_connection PS Resp)
    (new_start : Nat) (data : List Char) :
    ((headers_done env c new_start data).trace = c.trace ++ [action.async_read_some] ∧
      ∃ n, (headers_done env c new_start data).pending = pending_op.read_body_contents n) ∨
    ((headers_done env c new_start data).pending = pending_op.write ∧
      ∃ resp, (headers_done env c new_start data).trace =
        c.trace ++ [action.async_write resp]) ∨
    ((headers_done env c new_start data).pending = pending_op.write ∧
      ∃ req resp, (headers_done env c new_start data).trace =
        c.trace ++ [action.handler_call req, action.async_write resp]) := by
  unfold headers_done
  split
  · split
    · exact Or.inr (Or.inl ⟨rfl, _, rfl⟩)
    · split
      · exact Or.inr (Or.inl ⟨rfl, _, rfl⟩)
      · rcases after_content_length_shape env c _ new_start data with h | h
        · exact Or.inl h
        · exact Or.inr (Or.inr h)
  · exact Or.inr (Or.inr ⟨rfl, c.request_, env.handler_ c.request_ c.response_, by
      simp [call_handler, schedule_write]⟩)

theorem deliver_not_accepted (env : collab PS Resp) (c : sync_connection PS Resp)
    (ev : completion) (h : accepts c.pending ev = false) : deliver env c ev = c := by
  cases ev with
  | read ec data =>
    cases hp : c.pending <;> simp [deliver, hp, accepts] at h ⊢
  | write ec =>
    cases hp : c.pending <;> simp [deliver, hp, accepts] at h ⊢

theorem deliver_shape (env : collab PS Resp) (c : sync_connection PS Resp)
    (ev : completion) (h : accepts c.pending ev = true) :
    ((deliver env c ev).trace = c.trace ∧ (deliver env c ev).pending = pending_op.idle) ∨
    ((deliver env c ev).trace = c.trace ++ [action.async_read_some] ∧
      c.pending ≠ pending_op.write ∧
      ((deliver env c ev).pending = pending_op.read_headers ∨
        ∃ n, (deliver env c ev).pending = pending_op.read_body_contents n)) ∨
    ((deliver env c ev).pending = pending_op.write ∧ c.pending ≠ pending_op.write ∧
      ∃ resp, (deliver env c ev).trace = c.trace ++ [action.async_write resp]) ∨
    ((deliver env c ev).pending = pending_op.write ∧ c.pending ≠ pending_op.write ∧
      ∃ req resp, (deliver env c ev).trace =
        c.trace ++ [action.handler_call req, action.async_write resp]) ∨
    ((deliver env c ev).trace = c.trace ++ [action.shutdown_receive] ∧
      (deliver env c ev).pending = pending_op.idle ∧ c.pending = pending_op.write) := by
  cases ev with
  | read ec data =>
    cases hp : c.pending with
    | read_headers =>
      cases ec with
      | true => exact Or.inl (by simp [deliver, hp, handle_read_headers])
      | false =>
        have hd : deliver env c (completion.read false data) =
            handle_read_headers env c false data := by simp [deliver, hp]
        rw [hd]
        unfold handle_read_headers
        simp only [Bool.false_eq_true, if_false]
        split
        · rcases headers_done_shape env (after_parse env c data)
            (parsed env c data).new_start data with h1 | h1 | h1
          · exact Or.inr (Or.inl ⟨h1.1, by simp, Or.inr h1.2⟩)
          · exact Or.inr (Or.inr (Or.inl ⟨h1.1, by simp, h1.2⟩))
          · exact Or.inr (Or.inr (Or.inr (Or.inl ⟨h1.1, by simp, h1.2⟩)))
        · exact Or.inr (Or.inr (Or.inl ⟨rfl, by simp, _, rfl⟩))
        · exact Or.inr (Or.inl ⟨rfl, by simp, Or.inl rfl⟩)
    | read_body_contents n =>
      cases ec with
      | true => exact Or.inl (by simp [deliver, hp, handle_read_body_contents])
      | false =>
        have hd : deliver env c (completion.read false data) =
            handle_read_body_contents env c false n data := by simp [deliver, hp]
        rw [hd]
        unfold handle_read_body_contents
        simp only [Bool.false_eq_true, if_false]
        split
        · exact Or.inr (Or.inr (Or.inr (Or.inl ⟨rfl, by simp, _, _, by
            simp [call_handler, schedule_write, body_append]; exact ⟨rfl, rfl⟩⟩)))
        · exact Or.inr (Or.inl ⟨rfl, by simp, Or.inr ⟨_, rfl⟩⟩)
    | write => simp [accepts, hp] at h
    | idle => simp [accepts, hp] at h
  | write ec =>
    cases hp : c.pending with
    | write =>
      cases ec with
      | true => exact Or.inl (by simp [deliver, hp, handle_write])
      | false =>
        exact Or.inr (Or.inr (Or.inr (Or.inr (by simp [deliver, hp, handle_write]))))
    | read_headers => simp [accepts, hp] at h
    | read_body_contents n => simp [accepts, hp] at h
    | idle => simp [accepts, hp] at h

variable {PS Resp : Type}

/-! ## Counting along a trace -/

theorem shutdowns_issued_append (l1 l2 : List (action Resp)) :
    shutdowns_issued (l1 ++ l2) = shutdowns_issued l1 + shutdowns_issued l2 := by
  induction l1 with
  | nil => simp [shutdowns_issued]
  | cons a t ih =>
    cases a <;> simp [shutdowns_issued, ih]
    omega

theorem ops_issued_append (l1 l2 : List (action Resp)) :
    ops_issued (l1 ++ l2) = ops_issued l1 + ops_issued l2 := by
  induction l1 with
  | nil => simp [ops_issued]
  | cons a t ih =>
    cases a <;> simp [ops_issued, ih] <;> omega

theorem accepts_idle (ev : completion) : accepts pending_op.idle ev = false := by
  cases ev <;> rfl

theorem run_idle (env : collab PS Resp) :
    ∀ (evs : List completion) (c : sync_connection PS Resp),
      c.pending = pending_op.idle → run env c evs = c
  | [], _, _ => rfl
  | ev :: evs, c, h => by
    have hd : deliver env c ev = c :=
      deliver_not_accepted env c ev (by rw [h]; exact accepts_idle ev)
    rw [run_cons, hd]
    exact run_idle env evs c h

theorem run_write_shutdowns (env : collab PS Resp) :
    ∀ (evs : List completion) (c : sync_connection PS Resp),
      c.pending = pending_op.write →
      shutdowns_issued (run env c evs).trace ≤ shutdowns_issued c.trace + 1
  | [], _, _ => Nat.le_succ _
  | ev :: evs, c, h => by
    rw [run_cons]
    cases ha : accepts c.pending ev with
    | false =>
      rw [deliver_not_accepted env c ev ha]
      exact run_write_shutdowns env evs c h
    | true =>
      rcases deliver_shape env c ev ha with h1 | h1 | h1 | h1 | h1
      · rw [run_idle env evs _ h1.2, h1.1]
        exact Nat.le_succ _
      · exact absurd h h1.2.1
      · exact absurd h h1.2.1
      · exact absurd h h1.2.1
      · rw [run_idle env evs _ h1.2.1, h1.1, shutdowns_issued_append]
        simp [shutdowns_issued]

theorem run_counts (env : collab PS Resp) :
    ∀ (evs : List completion) (c : sync_connection PS Resp),
      (handler_calls (run env c evs).trace).length ≤ (handler_calls c.trace).length + 1 ∧
      (writes_issued (run env c evs).trace).length ≤ (writes_issued c.trace).length + 1 ∧
      shutdowns_issued (run env c evs).trace ≤ shutdowns_issued c.trace + 1
  | [], _ => ⟨Nat.le_succ _, Nat.le_succ _, Nat.le_succ _⟩
  | ev :: evs, c => by
    rw [run_cons]
    cases ha : accepts c.pending ev with
    | false =>
      rw [deliver_not_accepted env c ev ha]
      exact run_counts env evs c
    | true =>
      rcases deliver_shape env c ev ha with h1 | h1 | h1 | h1 | h1
      · rw [run_idle env evs _ h1.2, h1.1]
        exact ⟨Nat.le_succ _, Nat.le_succ _, Nat.le_succ _⟩
      · have ih := run_counts env evs (deliver env c ev)
        rw [h1.1] at ih
        simpa [handler_calls_append, writes_issued_append, shutdowns_issued_append,
          handler_calls, writes_issued, shutdowns_issued] using ih
      · obtain ⟨resp, ht⟩ := h1.2.2
        obtain ⟨_, _, _, k4, _, k6⟩ := run_after_write env evs _ (Or.inl h1.1)
        have ks := run_write_shutdowns env evs _ h1.1
        rw [k4, k6, ht]
        rw [ht] at ks
        simpa [handler_calls_append, writes_issued_append, shutdowns_issued_append,
          handler_calls, writes_issued, shutdowns_issued] using ks
      · obtain ⟨req, resp, ht⟩ := h1.2.2
        obtain ⟨_, _, _, k4, _, k6⟩ := run_after_write env evs _ (Or.inl h1.1)
        have ks := run_write_shutdowns env evs _ h1.1
        rw [k4, k6, ht]
        rw [ht] at ks
        simpa [handler_calls_append, writes_issued_append, shutdowns_issued_append,
          handler_calls, writes_issued, shutdowns_issued] using ks
      · rw [run_idle env evs _ h1.2.1, h1.1]
        simp [handler_calls_append, writes_issued_append, shutdowns_issued_append,
          handler_calls, writes_issued, shutdowns_issued]

theorem ops_accounting (env : collab PS Resp) :
    ∀ (evs : List completion) (c : sync_connection PS Resp),
      ops_issued (run env c evs).trace + outstanding c.pending =
        ops_issued c.trace + outstanding (run env c evs).pending + callbacks_run env c evs
  | [], _ => by simp [run, callbacks_run]
  | ev :: evs, c => by
    rw [run_cons]
    have ih := ops_accounting env evs (deliver env c ev)
    cases ha : accepts c.pending ev with
    | false =>
      rw [deliver_not_accepted env c ev ha] at ih ⊢
      simp only [callbacks_run, ha, deliver_not_accepted env c ev ha]
      simpa using ih
    | true =>
      have hout : outstanding c.pending = 1 := by
        cases hp : c.pending with
        | idle => rw [hp, accepts_idle] at ha; cases ha
        | read_headers => rfl
        | read_body_contents n => rfl
        | write => rfl
      simp only [callbacks_run, ha, if_true]
      rcases deliver_shape env c ev ha with h1 | h1 | h1 | h1 | h1
      · have ho : outstanding (deliver env c ev).pending = 0 := by rw [h1.2]; rfl
        rw [h1.1, ho] at ih
        omega
      · have ho : outstanding (deliver env c ev).pending = 1 := by
          rcases h1.2.2 with h2 | ⟨n, h2⟩ <;> rw [h2] <;> rfl
        rw [h1.1, ho, ops_issued_append] at ih
        simp only [ops_issued] at ih
        omega
      · obtain ⟨resp, ht⟩ := h1.2.2
        have ho : outstanding (deliver env c ev).pending = 1 := by rw [h1.1]; rfl
        rw [ht, ho, ops_issued_append] at ih
        simp only [ops_issued] at ih
        omega
      · obtain ⟨req, resp, ht⟩ := h1.2.2
        have ho : outstanding (deliver env c ev).pending = 1 := by rw [h1.1]; rfl
        rw [ht, ho, ops_issued_append] at ih
        simp only [ops_issued] at ih
        omega
      · have ho : outstanding (deliver env c ev).pending = 0 := by rw [h1.2.1]; rfl
        rw [h1.1, ho, ops_issued_append] at ih
        simp only [ops_issued] at ih
        omega

variable {PS Resp : Type}

/-- C11 (malformed headers).  When the parser reports `false` on a successful
read, the response is the stock 400 reply and one write of it is issued; no
completion after that adds a handler call, a read or a second write; and when
the write completes the receive side is shut down and nothing is outstanding. -/
theorem malformed_headers (env : collab PS Resp) (c : sync_connection PS Resp)
    (data : List Char) (hpend : c.pending = pending_op.read_headers)
    (hfail : (parsed env c data).done = tribool.false_value) :
    (deliver env c (completion.read false data)).response_ = env.stock_reply_bad_request ∧
      (deliver env c (completion.read false data)).trace =
        c.trace ++ [action.async_write env.stock_reply_bad_request] ∧
      (deliver env c (completion.read false data)).pending = pending_op.write ∧
      (∀ evs : List completion,
        handler_calls (run env c (completion.read false data :: evs)).trace =
            handler_calls c.trace ∧
          reads_issued (run env c (completion.read false data :: evs)).trace =
            reads_issued c.trace ∧
          writes_issued (run env c (completion.read false data :: evs)).trace =
            writes_issued c.trace ++ [env.stock_reply_bad_request]) ∧
      (run env c [completion.read false data, completion.write false]).trace =
        c.trace ++ [action.async_write env.stock_reply_bad_request, action.shutdown_receive] ∧
      (run env c [completion.read false data, completion.write false]).pending =
        pending_op.idle := by
  have hstep : deliver env c (completion.read false data) =
      reply_bad_request env (after_parse env c data) := by
    simp [deliver, hpend, handle_read_headers, hfail]
  have hw : (reply_bad_request env (after_parse env c data)).pending = pending_op.write := rfl
  refine ⟨by rw [hstep]; rfl, by rw [hstep]; rfl, by rw [hstep, hw], ?_, ?_, ?_⟩
  · intro evs
    obtain ⟨_, _, _, k4, k5, k6⟩ :=
      run_after_write env evs (reply_bad_request env (after_parse env c data)) (Or.inl hw)
    rw [run_cons, hstep, k4, k5, k6]
    simp [reply_bad_request, schedule_write, after_parse, handler_calls_append,
      reads_issued_append, writes_issued_append, handler_calls, reads_issued, writes_issued]
  · rw [run_cons, hstep]
    simp [run, deliver, reply_bad_request, schedule_write, after_parse, handle_write]
  · rw [run_cons, hstep]
    simp [run, deliver, reply_bad_request, schedule_write, after_parse, handle_write]

/-- Witness of C11: the parser stub reports `false` on the first read. -/
theorem malformed_headers_witness :
    (deliver (verdict_env tribool.false_value) fresh
        (completion.read false head_bytes)).response_ = 400 ∧
      (deliver (verdict_env tribool.false_value) fresh
        (completion.read false head_bytes)).trace = fresh.trace ++ [action.async_write 400] ∧
      (deliver (verdict_env tribool.false_value) fresh
        (completion.read false head_bytes)).pending = pending_op.write ∧
      (∀ evs : List completion,
        handler_calls (run (verdict_env tribool.false_value) fresh
            (completion.read false head_bytes :: evs)).trace = handler_calls fresh.trace ∧
          reads_issued (run (verdict_env tribool.false_value) fresh
            (completion.read false head_bytes :: evs)).trace = reads_issued fresh.trace ∧
          writes_issued (run (verdict_env tribool.false_value) fresh
            (completion.read false head_bytes :: evs)).trace =
            writes_issued fresh.trace ++ [400]) ∧
      (run (verdict_env tribool.false_value) fresh
        [completion.read false head_bytes, completion.write false]).trace =
        fresh.trace ++ [action.async_write 400, action.shutdown_receive] ∧
      (run (verdict_env tribool.false_value) fresh
        [completion.read false head_bytes, completion.write false]).pending =
        pending_op.idle :=
  malformed_headers (verdict_env tribool.false_value) fresh head_bytes rfl rfl

/-- C12 (transport errors).  Whatever operation is outstanding (header read,
body read or write), its completion with an error set changes nothing but the
scheduled callback: no action is added to the trace, request and response stay
as they are, nothing is outstanding, and it stays so for all later completions. -/
theorem transport_error_aborts (env : collab PS Resp) (c : sync_connection PS Resp)
    (ev : completion) (evs : List completion)
    (hacc : accepts c.pending ev = true) (herr : has_error ev = true) :
    deliver env c ev = { c with pending := pending_op.idle } ∧
      run env c (ev :: evs) = { c with pending := pending_op.idle } := by
  have hd : deliver env c ev = { c with pending := pending_op.idle } := by
    cases ev with
    | read ec data =>
      have he : ec = true := herr
      subst he
      cases hp : c.pending with
      | read_headers => simp [deliver, hp, handle_read_headers]
      | read_body_contents n => simp [deliver, hp, handle_read_body_contents]
      | write => simp [accepts, hp] at hacc
      | idle => simp [accepts, hp] at hacc
    | write ec =>
      have he : ec = true := herr
      subst he
      cases hp : c.pending with
      | write => simp [deliver, hp, handle_write]
      | read_headers => simp [accepts, hp] at hacc
      | read_body_contents n => simp [accepts, hp] at hacc
      | idle => simp [accepts, hp] at hacc
  refine ⟨hd, ?_⟩
  rw [run_cons, hd]
  exact run_idle env evs _ rfl

/-- Witness of C12: the body read of a `POST` request fails. -/
theorem transport_error_aborts_witness :
    deliver (post_env "10") (deliver (post_env "10") fresh (completion.read false head_bytes))
        (completion.read true []) =
        { deliver (post_env "10") fresh (completion.read false head_bytes) with
          pending := pending_op.idle } ∧
      run (post_env "10") (deliver (post_env "10") fresh (completion.read false head_bytes))
        (completion.read true [] :: [completion.read false "12345".toList]) =
        { deliver (post_env "10") fresh (completion.read false head_bytes) with
          pending := pending_op.idle } :=
  transport_error_aborts (post_env "10")
    (deliver (post_env "10") fresh (completion.read false head_bytes))
    (completion.read true []) [completion.read false "12345".toList] rfl rfl

/-- C13 (post-response shutdown).  When the write completes without error the
receive side is shut down once and the connection stays exactly in that state
for every later completion: no read, no write, no handler call, no second
shutdown.  On any run from any state at most one shutdown is added. -/
theorem post_response_shutdown (env : collab PS Resp) (c : sync_connection PS Resp)
    (evs : List completion) (hpend : c.pending = pending_op.write) :
    run env c (completion.write false :: evs) =
        { c with pending := pending_op.idle,
                 trace := c.trace ++ [action.shutdown_receive] } ∧
      shutdowns_issued (run env c (completion.write false :: evs)).trace =
        shutdowns_issued c.trace + 1 ∧
      ∀ (c2 : sync_connection PS Resp) (evs2 : List completion),
        shutdowns_issued (run env c2 evs2).trace ≤ shutdowns_issued c2.trace + 1 := by
  have hd : deliver env c (completion.write false) =
      { c with pending := pending_op.idle,
               trace := c.trace ++ [action.shutdown_receive] } := by
    simp [deliver, hpend, handle_write]
  have hr : run env c (completion.write false :: evs) =
      { c with pending := pending_op.idle,
               trace := c.trace ++ [action.shutdown_receive] } := by
    rw [run_cons, hd]
    exact run_idle env evs _ rfl
  refine ⟨hr, ?_, fun c2 evs2 => (run_counts env evs2 c2).2.2⟩
  rw [hr]
  simp [shutdowns_issued_append, shutdowns_issued]

/-- Witness of C13: a `GET` request is answered and the write completes. -/
theorem post_response_shutdown_witness :
    run (demo_env "GET".toList [] 7)
        (deliver (demo_env "GET".toList [] 7) fresh (completion.read false head_bytes))
        (completion.write false :: [completion.read false head_bytes]) =
        { deliver (demo_env "GET".toList [] 7) fresh (completion.read false head_bytes) with
          pending := pending_op.idle,
          trace := (deliver (demo_env "GET".toList [] 7) fresh
            (completion.read false head_bytes)).trace ++ [action.shutdown_receive] } ∧
      shutdowns_issued (run (demo_env "GET".toList [] 7)
        (deliver (demo_env "GET".toList [] 7) fresh (completion.read false head_bytes))
        (completion.write false :: [completion.read false head_bytes])).trace =
        shutdowns_issued (deliver (demo_env "GET".toList [] 7) fresh
          (completion.read false head_bytes)).trace + 1 ∧
      ∀ (c2 : sync_connection Unit Nat) (evs2 : List completion),
        shutdowns_issued (run (demo_env "GET".toList [] 7) c2 evs2).trace ≤
          shutdowns_issued c2.trace + 1 :=
  post_response_shutdown (demo_env "GET".toList [] 7)
    (deliver (demo_env "GET".toList [] 7) fresh (completion.read false head_bytes))
    [completion.read false head_bytes] rfl

variable {PS Resp : Type}

/-- C14 (the body-read transition), evaluated on a read that brings more than
remains.  With 3 bytes remaining a read of the 4 bytes `abcd` appends the first
`min 3 4 = 3` bytes, but although `4 ≥ 3` the handler is not called and no
write is issued: another body read is issued with `2 ^ 64 - 1` remaining. -/
theorem body_read_past_remaining :
    (run (post_env "3") fresh [completion.read false head_bytes]).pending
      = pending_op.read_body_contents 3 ∧
    (run (post_env "3") fresh
        [completion.read false head_bytes, completion.read false "abcd".toList]).request_.body
      = "abcd".toList.take (min 3 4) ∧
    (run (post_env "3") fresh
        [completion.read false head_bytes, completion.read false "abcd".toList]).pending
      = pending_op.read_body_contents (2 ^ 64 - 1) ∧
    handler_calls (run (post_env "3") fresh
        [completion.read false head_bytes, completion.read false "abcd".toList]).trace
      = [] ∧
    writes_issued (run (post_env "3") fresh
        [completion.read false head_bytes, completion.read false "abcd".toList]).trace
      = [] := by
  decide

/-- The header-completing read of a body-bearing request with `Content-Length`
`K > 0`, in general: the bytes past the cursor are appended to the body in that
callback and the count carried on is `size_sub` of `K` and their number `t`,
which is `K - t` when `t ≤ K`; 0 leads to the handler call and the write, any
other value to one body read with that count. -/
theorem coalesced_read (env : collab PS Resp) (c : sync_connection PS Resp)
    (data : List Char) (it : request_header) (K : Nat)
    (hpend : c.pending = pending_op.read_headers)
    (hdone : (parsed env c data).done = tribool.true_value)
    (hP : (parsed env c data).request.method.head? = some 'P')
    (hfind : (parsed env c data).request.headers.find? is_content_length = some it)
    (hK : stoul env.size_bits it.value = some K) (hpos : 0 < K) :
    (deliver env c (completion.read false data)).request_ =
        { (parsed env c data).request with
          body := (parsed env c data).request.body ++
            data.drop (parsed env c data).new_start } ∧
      (data.length - (parsed env c data).new_start ≤ K →
        size_sub env.size_bits K (data.length - (parsed env c data).new_start) =
          K - (data.length - (parsed env c data).new_start)) ∧
      (size_sub env.size_bits K (data.length - (parsed env c data).new_start) = 0 →
        (deliver env c (completion.read false data)).pending = pending_op.write ∧
        (deliver env c (completion.read false data)).trace =
          c.trace ++ [action.handler_call (deliver env c (completion.read false data)).request_,
            action.async_write
              (env.handler_ (deliver env c (completion.read false data)).request_
                c.response_)]) ∧
      (size_sub env.size_bits K (data.length - (parsed env c data).new_start) ≠ 0 →
        (deliver env c (completion.read false data)).pending =
          pending_op.read_body_contents
            (size_sub env.size_bits K (data.length - (parsed env c data).new_start)) ∧
        (deliver env c (completion.read false data)).trace =
          c.trace ++ [action.async_read_some]) := by
  have hK2 : K < 2 ^ env.size_bits := stoul_lt hK
  have hP2 : (after_parse env c data).request_.method.head? = some 'P' := hP
  have hf : (after_parse env c data).request_.headers.find? is_content_length = some it :=
    hfind
  have hstep : deliver env c (completion.read false data) =
      after_content_length env (after_parse env c data) K (parsed env c data).new_start data := by
    rw [deliver_read_headers env c data hpend hdone,
      headers_done_length env _ _ data it K hP2 hf hK]
  have h0 : K ≠ 0 := by omega
  rw [hstep]
  by_cases hns : (parsed env c data).new_start = data.length
  · have hsub : size_sub env.size_bits K (data.length - (parsed env c data).new_start) = K := by
      rw [hns, Nat.sub_self, size_sub_of_le hK2 (Nat.zero_le _), Nat.sub_zero]
    rw [hsub]
    refine ⟨?_, fun _ => by omega, fun h => absurd h h0, fun _ => ?_⟩
    · simp [after_content_length, h0, hns, hpos, schedule_read, after_parse]
    · simp [after_content_length, h0, hns, hpos, schedule_read, after_parse]
  · refine ⟨?_, fun h => size_sub_of_le hK2 h, fun h => ?_, fun h => ?_⟩
    · unfold after_content_length
      simp only []
      split_ifs <;> simp [schedule_read, call_handler, schedule_write, body_append, after_parse]
    · simp [after_content_length, h0, hns, h, call_handler, schedule_write, body_append,
        after_parse]
    · have hgt : size_sub env.size_bits K (data.length - (parsed env c data).new_start) > 0 :=
        Nat.pos_of_ne_zero h
      simp [after_content_length, h0, hns, hgt, schedule_read, body_append, after_parse]

/-- The general case above at `Content-Length: 10` with the 4 bytes `1234` in
the header-completing read: 6 bytes remain. -/
theorem coalesced_read_witness :
    (deliver (post_env "10") fresh
        (completion.read false (head_bytes ++ "1234".toList))).request_.body =
      "1234".toList ∧
    (deliver (post_env "10") fresh
        (completion.read false (head_bytes ++ "1234".toList))).pending =
      pending_op.read_body_contents 6 :=
  ⟨congrArg basic_request.body
      (coalesced_read (post_env "10") fresh (head_bytes ++ "1234".toList)
        (content_length_header "10") 10 rfl rfl rfl rfl (by decide) (by decide)).1,
    by decide⟩

/-- C16 (needs more data).  When the parser reports `indeterminate` on a
successful read, the connection issues one read whose completion runs
`handle_read_headers` again, keeps the parser object and the request as the
parser left them, and leaves the response alone: no handler call, no write.
The next parse starts from the parser state of this one. -/
theorem needs_more_data (env : collab PS Resp) (c : sync_connection PS Resp)
    (data : List Char) (hpend : c.pending = pending_op.read_headers)
    (hind : (parsed env c data).done = tribool.indeterminate_value) :
    deliver env c (completion.read false data) =
        { c with parser_ := (parsed env c data).parser_state,
                 request_ := (parsed env c data).request,
                 pending := pending_op.read_headers,
                 trace := c.trace ++ [action.async_read_some] } ∧
      ∀ data2 : List Char,
        parsed env (deliver env c (completion.read false data)) data2 =
          env.parse_headers (parsed env c data).parser_state
            { (parsed env c data).request with
              source := env.remote_address, source_port := env.remote_port } data2 := by
  have hstep : deliver env c (completion.read false data) =
      { c with parser_ := (parsed env c data).parser_state,
               request_ := (parsed env c data).request,
               pending := pending_op.read_headers,
               trace := c.trace ++ [action.async_read_some] } := by
    simp [deliver, hpend, handle_read_headers, hind, schedule_read, after_parse]
  refine ⟨hstep, fun data2 => ?_⟩
  rw [hstep]
  rfl

/-- Witness of C16: the parser stub reports `indeterminate` on the first read. -/
theorem needs_more_data_witness :
    (deliver (verdict_env tribool.indeterminate_value) fresh
        (completion.read false head_bytes)).pending = pending_op.read_headers ∧
    (deliver (verdict_env tribool.indeterminate_value) fresh
        (completion.read false head_bytes)).trace =
      fresh.trace ++ [action.async_read_some] :=
  ⟨congrArg sync_connection.pending
      (needs_more_data (verdict_env tribool.indeterminate_value) fresh head_bytes rfl rfl).1,
    congrArg sync_connection.trace
      (needs_more_data (verdict_env tribool.indeterminate_value) fresh head_bytes rfl rfl).1⟩

theorem stoul_digit_run_overflow (w : Nat) (ds rest : List Char) (hne : ds ≠ [])
    (hds : ∀ d ∈ ds, d.isDigit = true)
    (hrest : ∀ ch, rest.head? = some ch → ch.isDigit = false)
    (hge : 2 ^ w ≤ digits_value ds) :
    stoul w (ds ++ rest) = none := by
  cases ds with
  | nil => exact absurd rfl hne
  | cons d t =>
    have hd : d.isDigit = true := hds d (by simp)
    have hsp : isspace d = false := not_isspace_of_isDigit hd
    have hdrop : (d :: t ++ rest).dropWhile isspace = d :: (t ++ rest) := by
      simp [List.dropWhile, hsp]
    have htake : (d :: (t ++ rest)).takeWhile Char.isDigit = d :: t :=
      takeWhile_digit_run (d :: t) rest hds hrest
    simp only [stoul, hdrop, strip_sign_of_isDigit (t ++ rest) hd, htake]
    simp [hge]

/-- C17 (conversion failures do not escape).  For a body-bearing request with
first `Content-Length` header `it`, whatever its value is, the header-complete
read either gives the stock 400 reply or continues with a converted length
below `2 ^ size_bits`; a failed conversion gives the stock 400 reply exactly as
a missing header does, and a digit string that denotes `2 ^ size_bits` or more
is a failed conversion. -/
theorem conversion_failure_is_bad_request (env : collab PS Resp)
    (c : sync_connection PS Resp) (data : List Char) (it : request_header)
    (hpend : c.pending = pending_op.read_headers)
    (hdone : (parsed env c data).done = tribool.true_value)
    (hP : (parsed env c data).request.method.head? = some 'P')
    (hfind : (parsed env c data).request.headers.find? is_content_length = some it) :
    (deliver env c (completion.read false data) =
          reply_bad_request env (after_parse env c data) ∨
        ∃ K, K < 2 ^ env.size_bits ∧ stoul env.size_bits it.value = some K ∧
          deliver env c (completion.read false data) =
            after_content_length env (after_parse env c data) K
              (parsed env c data).new_start data) ∧
      (stoul env.size_bits it.value = none →
        (deliver env c (completion.read false data)).response_ =
            env.stock_reply_bad_request ∧
          (deliver env c (completion.read false data)).trace =
            c.trace ++ [action.async_write env.stock_reply_bad_request] ∧
          (deliver env c (completion.read false data)).pending = pending_op.write ∧
          ∀ evs : List completion,
            handler_calls (run env c (completion.read false data :: evs)).trace =
                handler_calls c.trace ∧
              reads_issued (run env c (completion.read false data :: evs)).trace =
                reads_issued c.trace ∧
              (run env c (completion.read false data :: evs)).response_ =
                env.stock_reply_bad_request) ∧
      (it.value ≠ [] → (∀ d ∈ it.value, d.isDigit = true) →
        2 ^ env.size_bits ≤ digits_value it.value →
        stoul env.size_bits it.value = none) := by
  have hP2 : (after_parse env c data).request_.method.head? = some 'P' := hP
  have hf : (after_parse env c data).request_.headers.find? is_content_length = some it :=
    hfind
  have hstep := deliver_read_headers env c data hpend hdone
  have hnone : stoul env.size_bits it.value = none →
      deliver env c (completion.read false data) =
        reply_bad_request env (after_parse env c data) := by
    intro hs
    rw [hstep]
    simp [headers_done, hP2, hf, hs]
  refine ⟨?_, fun hs => bad_request_outcome env c data (hnone hs), ?_⟩
  · cases hs : stoul env.size_bits it.value with
    | none => exact Or.inl (hnone hs)
    | some K =>
      exact Or.inr ⟨K, stoul_lt hs, rfl, by
        rw [hstep, headers_done_length env _ _ data it K hP2 hf hs]⟩
  · intro hne hds hge
    have h := stoul_digit_run_overflow env.size_bits it.value [] hne hds (by simp) hge
    simpa using h

/-- Witness of C17: `Content-Length: 18446744073709551616`, which is `2 ^ 64`. -/
theorem conversion_failure_is_bad_request_witness :
    stoul (post_env "18446744073709551616").size_bits
        (content_length_header "18446744073709551616").value = none ∧
      (deliver (post_env "18446744073709551616") fresh
        (completion.read false head_bytes)).trace = fresh.trace ++ [action.async_write 400] :=
  ⟨(conversion_failure_is_bad_request (post_env "18446744073709551616") fresh head_bytes
      (content_length_header "18446744073709551616") rfl rfl rfl rfl).2.2
      (by decide) (by decide) (by decide),
    ((conversion_failure_is_bad_request (post_env "18446744073709551616") fresh head_bytes
      (content_length_header "18446744073709551616") rfl rfl rfl rfl).2.1 (by decide)).2.1⟩

variable {PS Resp : Type}

/-- C18 (one operation outstanding, one response).  A completion adds at most
one asynchronous operation to the trace.  Along any run the operations issued
are the callbacks run plus the operations outstanding, and at most one is
outstanding at the end.  Along any run the handler is called at most once more
and at most one more write is issued. -/
theorem single_operation_single_response (env : collab PS Resp)
    (c : sync_connection PS Resp) (evs : List completion) :
    (∀ ev, ops_issued (deliver env c ev).trace ≤ ops_issued c.trace + 1) ∧
      ops_issued (run env c evs).trace + outstanding c.pending =
        ops_issued c.trace + outstanding (run env c evs).pending + callbacks_run env c evs ∧
      outstanding (run env c evs).pending ≤ 1 ∧
      (handler_calls (run env c evs).trace).length ≤ (handler_calls c.trace).length + 1 ∧
      (writes_issued (run env c evs).trace).length ≤ (writes_issued c.trace).length + 1 := by
  refine ⟨?_, ops_accounting env evs c, ?_, (run_counts env evs c).1, (run_counts env evs c).2.1⟩
  · intro ev
    cases ha : accepts c.pending ev with
    | false =>
      rw [deliver_not_accepted env c ev ha]
      exact Nat.le_succ _
    | true =>
      rcases deliver_shape env c ev ha with h1 | h1 | h1 | h1 | h1
      · rw [h1.1]
        exact Nat.le_succ _
      · rw [h1.1, ops_issued_append]
        simp [ops_issued]
      · obtain ⟨resp, ht⟩ := h1.2.2
        rw [ht, ops_issued_append]
        simp [ops_issued]
      · obtain ⟨req, resp, ht⟩ := h1.2.2
        rw [ht, ops_issued_append]
        simp [ops_issued]
      · rw [h1.1, ops_issued_append]
        simp [ops_issued]
  · cases (run env c evs).pending <;> simp [outstanding]

/-- C19 (termination of the body loop).  From a pending body read with
`r > 0` bytes remaining, let every read succeed and bring at least one byte and
at most what remains when it arrives.  Then for some `n` with `1 ≤ n ≤ r` the
handler is called at the `n`-th read and not before, the body has grown by the
`n` reads, which are `r` bytes in all, and before each of these reads a body
read is pending whose count is smaller after the read than before it. -/
theorem body_loop_terminates (env : collab PS Resp) (r : Nat) :
    ∀ (c : sync_connection PS Resp) (s : Nat → List Char),
      c.pending = pending_op.read_body_contents r → 0 < r → r < 2 ^ env.size_bits →
      (∀ i m, (run env c ((stream_chunks s i).map (completion.read false))).pending =
          pending_op.read_body_contents m → 1 ≤ (s i).length ∧ (s i).length ≤ m) →
      ∃ n, 1 ≤ n ∧ n ≤ r ∧
        (run env c ((stream_chunks s n).map (completion.read false))).pending =
          pending_op.write ∧
        handler_calls (run env c ((stream_chunks s n).map (completion.read false))).trace =
          handler_calls c.trace ++
            [{ c.request_ with body := c.request_.body ++ (stream_chunks s n).flatten }] ∧
        (stream_chunks s n).flatten.length = r ∧
        ∀ i, i < n →
          (run env c ((stream_chunks s i).map (completion.read false))).pending =
            pending_op.read_body_contents (r - (stream_chunks s i).flatten.length) ∧
          handler_calls (run env c ((stream_chunks s i).map (completion.read false))).trace =
            handler_calls c.trace ∧
          r - (stream_chunks s (i + 1)).flatten.length <
            r - (stream_chunks s i).flatten.length := by
  induction r using Nat.strong_induction_on with
  | _ r ih =>
    intro c s hp hr hw hadm
    have h0 := hadm 0 r hp
    have hd : ∀ data, deliver env c (completion.read false data) =
        handle_read_body_contents env c false r data := by
      intro data
      simp [deliver, hp]
    by_cases heq : (s 0).length = r
    · refine ⟨1, Nat.le_refl 1, hr, ?_, ?_, ?_, ?_⟩
      · show (deliver env c (completion.read false (s 0))).pending = pending_op.write
        rw [hd, body_read_exact env c r (s 0) hw heq]
        rfl
      · show handler_calls (deliver env c (completion.read false (s 0))).trace = _
        rw [hd, body_read_exact env c r (s 0) hw heq, handler_calls_call_handler]
        simp [stream_chunks]
      · simp [stream_chunks, heq]
      · intro i hi
        have hi0 : i = 0 := by omega
        subst hi0
        refine ⟨by simpa [stream_chunks, run] using hp, rfl, ?_⟩
        simp [stream_chunks]
        omega
    · have hlt : (s 0).length < r := by omega
      have hstep := body_read_short env c r (s 0) hw hlt
      obtain ⟨n, hn1, hn2, hn3, hn4, hn5, hn6⟩ :=
        ih (r - (s 0).length) (by omega)
          (deliver env c (completion.read false (s 0))) (fun i => s (i + 1))
          (by rw [hd, hstep]) (by omega) (by omega)
          (fun i m h => hadm (i + 1) m h)
      refine ⟨n + 1, by omega, by omega, hn3, ?_, ?_, ?_⟩
      · show handler_calls (run env (deliver env c (completion.read false (s 0)))
          ((stream_chunks (fun i => s (i + 1)) n).map (completion.read false))).trace = _
        rw [hn4, hd, hstep]
        simp [stream_chunks, handler_calls_append, handler_calls]
      · show (s 0 :: stream_chunks (fun i => s (i + 1)) n).flatten.length = r
        simp only [List.flatten_cons, List.length_append, hn5]
        omega
      · intro i hi
        cases i with
        | zero =>
          refine ⟨by simpa [stream_chunks, run] using hp, rfl, ?_⟩
          simp [stream_chunks]
          omega
        | succ j =>
          obtain ⟨k1, k2, k3⟩ := hn6 j (by omega)
          refine ⟨?_, ?_, ?_⟩
          · show (run env (deliver env c (completion.read false (s 0)))
              ((stream_chunks (fun i => s (i + 1)) j).map (completion.read false))).pending = _
            rw [k1]
            simp [stream_chunks, Nat.sub_sub]
          · show handler_calls (run env (deliver env c (completion.read false (s 0)))
              ((stream_chunks (fun i => s (i + 1)) j).map (completion.read false))).trace = _
            rw [k2, hd, hstep]
            simp [handler_calls_append, handler_calls]
          · show r - (s 0 :: stream_chunks (fun i => s (i + 1)) (j + 1)).flatten.length <
              r - (s 0 :: stream_chunks (fun i => s (i + 1)) j).flatten.length
            simp only [List.flatten_cons, List.length_append]
            omega

variable {PS Resp : Type}

/-- Witness of C19: 10 bytes remaining, reads of 5 bytes. -/
theorem body_loop_terminates_witness :
    ∃ n, 1 ≤ n ∧ n ≤ 10 ∧
      (run (post_env "10") awaiting_ten
        ((stream_chunks demo_stream n).map (completion.read false))).pending =
        pending_op.write ∧
      (stream_chunks demo_stream n).flatten.length = 10 := by
  have hadm : ∀ i m, (run (post_env "10") awaiting_ten
      ((stream_chunks demo_stream i).map (completion.read false))).pending =
        pending_op.read_body_contents m →
      1 ≤ (demo_stream i).length ∧ (demo_stream i).length ≤ m := by
    intro i m h
    match i, h with
    | 0, h =>
      have h2 : pending_op.read_body_contents 10 = pending_op.read_body_contents m := h
      cases h2
      decide
    | 1, h =>
      have h2 : pending_op.read_body_contents 5 = pending_op.read_body_contents m := h
      cases h2
      decide
    | k + 2, h =>
      have hw : (run (post_env "10") awaiting_ten
          [completion.read false (demo_stream 0), completion.read false (demo_stream 1)]).pending
            = pending_op.write := by decide
      have h3 := (run_after_write (post_env "10")
        ((stream_chunks (fun i => demo_stream (i + 1 + 1)) k).map (completion.read false))
        _ (Or.inl hw)).1
      have h4 : (run (post_env "10")
          (run (post_env "10") awaiting_ten
            [completion.read false (demo_stream 0), completion.read false (demo_stream 1)])
          ((stream_chunks (fun i => demo_stream (i + 1 + 1)) k).map
            (completion.read false))).pending = pending_op.read_body_contents m := h
      rw [h4] at h3
      rcases h3 with h5 | h5 <;> cases h5
  obtain ⟨n, h1, h2, h3, _, h5, _⟩ :=
    body_loop_terminates (post_env "10") 10 awaiting_ten demo_stream rfl (by decide)
      (by decide) hadm
  exact ⟨n, h1, h2, h3, h5⟩

variable {PS Resp : Type}

/-! ## The length of the body the handler sees -/

theorem body_inv_call_handler (env : collab PS Resp) (c : sync_connection PS Resp)
    (hold : ∀ req ∈ handler_calls c.trace, body_good env.size_bits req)
    (hnew : body_good env.size_bits c.request_) :
    body_inv env.size_bits (call_handler env c) := by
  refine ⟨?_, trivial⟩
  intro req hreq
  rw [handler_calls_call_handler, List.mem_append, List.mem_singleton] at hreq
  rcases hreq with h | h
  · exact hold req h
  · rw [h]; exact hnew

theorem body_inv_reply_bad_request (env : collab PS Resp) (c : sync_connection PS Resp)
    (hold : ∀ req ∈ handler_calls c.trace, body_good env.size_bits req) :
    body_inv env.size_bits (reply_bad_request env c) := by
  refine ⟨?_, trivial⟩
  intro req hreq
  have ht : handler_calls (reply_bad_request env c).trace = handler_calls c.trace := by
    simp [reply_bad_request, schedule_write, handler_calls_append, handler_calls]
  rw [ht] at hreq
  exact hold req hreq

theorem body_inv_schedule_body_read (env : collab PS Resp) (c : sync_connection PS Resp)
    (r : Nat) (hold : ∀ req ∈ handler_calls c.trace, body_good env.size_bits req)
    (hpos : 0 < r) (hlt : r < 2 ^ env.size_bits)
    (htrack : body_track env.size_bits c.request_ r) :
    body_inv env.size_bits (schedule_read c (pending_op.read_body_contents r)) := by
  refine ⟨?_, hpos, hlt, htrack⟩
  intro req hreq
  have ht : handler_calls (schedule_read c (pending_op.read_body_contents r)).trace =
      handler_calls c.trace := by
    simp [schedule_read, handler_calls_append, handler_calls]
  rw [ht] at hreq
  exact hold req hreq

theorem body_inv_after_content_length (env : collab PS Resp) (c : sync_connection PS Resp)
    (it : request_header) (K new_start : Nat) (data : List Char)
    (hcap : BUFFER_SIZE < 2 ^ env.size_bits) (hdata : data.length ≤ BUFFER_SIZE)
    (hold : ∀ req ∈ handler_calls c.trace, body_good env.size_bits req)
    (hbody : c.request_.body = [])
    (hfind : c.request_.headers.find? is_content_length = some it)
    (hK : stoul env.size_bits it.value = some K) :
    body_inv env.size_bits (after_content_length env c K new_start data) := by
  have hK2 : K < 2 ^ env.size_bits := stoul_lt hK
  have hsame : ∀ it2 K2, c.request_.headers.find? is_content_length = some it2 →
      stoul env.size_bits it2.value = some K2 → K2 = K := by
    intro it2 K2 h1 h2
    rw [hfind] at h1
    cases h1
    rw [hK] at h2
    exact (Option.some.inj h2).symm
  unfold after_content_length
  simp only []
  by_cases h0 : K = 0
  · rw [if_neg (by simpa using h0)]
    apply body_inv_call_handler env c hold
    intro it2 K2 _ h1 h2
    left
    rw [hsame it2 K2 h1 h2, hbody, h0]
    rfl
  · rw [if_pos (by simpa using h0)]
    by_cases hns : new_start = data.length
    · simp only [hns, ne_eq, not_true_eq_false, if_false]
      rw [if_pos (Nat.pos_of_ne_zero h0)]
      apply body_inv_schedule_body_read env c K hold (Nat.pos_of_ne_zero h0) hK2
      intro it2 K2 _ h1 h2
      left
      rw [hsame it2 K2 h1 h2, hbody]
      simp
    · simp only [ne_eq, hns, not_false_eq_true, if_true]
      have hlen : (body_append c (data.drop new_start)).request_.body.length =
          data.length - new_start := by
        simp [body_append, hbody]
      have hold2 : ∀ req ∈ handler_calls (body_append c (data.drop new_start)).trace,
          body_good env.size_bits req := hold
      by_cases hle : data.length - new_start ≤ K
      · rw [size_sub_of_le hK2 hle]
        by_cases hpos : K - (data.length - new_start) > 0
        · rw [if_pos hpos]
          apply body_inv_schedule_body_read env _ _ hold2 hpos (by omega)
          intro it2 K2 _ h1 h2
          left
          rw [hsame it2 K2 h1 h2, hlen]
          omega
        · rw [if_neg hpos]
          apply body_inv_call_handler env _ hold2
          intro it2 K2 _ h1 h2
          left
          rw [hsame it2 K2 h1 h2, hlen]
          omega
      · have ht : data.length - new_start < 2 ^ env.size_bits := by omega
        rw [size_sub_of_lt (by omega) ht]
        have hpos : K + 2 ^ env.size_bits - (data.length - new_start) > 0 := by omega
        rw [if_pos hpos]
        apply body_inv_schedule_body_read env _ _ hold2 hpos (by omega)
        intro it2 K2 _ h1 h2
        right
        rw [hlen]
        omega

variable {PS Resp : Type}

theorem body_inv_headers_done (env : collab PS Resp) (c : sync_connection PS Resp)
    (new_start : Nat) (data : List Char)
    (hcap : BUFFER_SIZE < 2 ^ env.size_bits) (hdata : data.length ≤ BUFFER_SIZE)
    (hold : ∀ req ∈ handler_calls c.trace, body_good env.size_bits req)
    (hbody : c.request_.body = []) :
    body_inv env.size_bits (headers_done env c new_start data) := by
  by_cases hP : c.request_.method.head? = some 'P'
  · cases hf : c.request_.headers.find? is_content_length with
    | none =>
      have he : headers_done env c new_start data = reply_bad_request env c := by
        simp [headers_done, hP, hf]
      rw [he]
      exact body_inv_reply_bad_request env c hold
    | some it =>
      cases hs : stoul env.size_bits it.value with
      | none =>
        have he : headers_done env c new_start data = reply_bad_request env c := by
          simp [headers_done, hP, hf, hs]
        rw [he]
        exact body_inv_reply_bad_request env c hold
      | some K =>
        rw [headers_done_length env c new_start data it K hP hf hs]
        exact body_inv_after_content_length env c it K new_start data hcap hdata hold hbody
          hf hs
  · have he : headers_done env c new_start data = call_handler env c := by
      simp [headers_done, hP]
    rw [he]
    apply body_inv_call_handler env c hold
    intro it K h _ _
    exact absurd h hP

theorem body_inv_read_body (env : collab PS Resp) (c : sync_connection PS Resp)
    (r : Nat) (data : List Char)
    (hcap : BUFFER_SIZE < 2 ^ env.size_bits) (hdata : data.length ≤ BUFFER_SIZE)
    (hold : ∀ req ∈ handler_calls c.trace, body_good env.size_bits req)
    (hpos : 0 < r) (hlt : r < 2 ^ env.size_bits)
    (htrack : body_track env.size_bits c.request_ r) :
    body_inv env.size_bits (handle_read_body_contents env c false r data) := by
  unfold handle_read_body_contents
  simp only [Bool.false_eq_true, if_false]
  have hlen : (body_append { c with pending := pending_op.idle }
      (data.take (min r data.length))).request_.body.length =
        c.request_.body.length + min r data.length := by
    simp [body_append]
  have hold2 : ∀ req ∈ handler_calls (body_append { c with pending := pending_op.idle }
      (data.take (min r data.length))).trace, body_good env.size_bits req := hold
  have htr : ∀ it K,
      (body_append { c with pending := pending_op.idle }
        (data.take (min r data.length))).request_.method.head? = some 'P' →
      (body_append { c with pending := pending_op.idle }
        (data.take (min r data.length))).request_.headers.find? is_content_length = some it →
      stoul env.size_bits it.value = some K →
      c.request_.body.length + r = K ∨
        2 ^ env.size_bits < c.request_.body.length + r + BUFFER_SIZE :=
    fun it K h1 h2 h3 => htrack it K h1 h2 h3
  by_cases hle : data.length ≤ r
  · rw [size_sub_of_le hlt hle]
    by_cases hz : r - data.length = 0
    · rw [if_pos hz]
      apply body_inv_call_handler env _ hold2
      intro it K h1 h2 h3
      rw [hlen]
      rcases htr it K h1 h2 h3 with h | h
      · left; omega
      · right; omega
    · rw [if_neg hz]
      apply body_inv_schedule_body_read env _ _ hold2 (by omega) (by omega)
      intro it K h1 h2 h3
      rw [hlen]
      rcases htr it K h1 h2 h3 with h | h
      · left; omega
      · right; omega
  · have hn : data.length < 2 ^ env.size_bits := by omega
    rw [size_sub_of_lt (by omega) hn]
    have hz : ¬ r + 2 ^ env.size_bits - data.length = 0 := by omega
    rw [if_neg hz]
    apply body_inv_schedule_body_read env _ _ hold2 (by omega) (by omega)
    intro it K h1 h2 h3
    rw [hlen]
    right
    omega

theorem body_inv_deliver (env : collab PS Resp) (c : sync_connection PS Resp)
    (ev : completion)
    (hkeep : ∀ ps rq d, (env.parse_headers ps rq d).request.body = rq.body)
    (hcap : BUFFER_SIZE < 2 ^ env.size_bits) (hsize : bytes_transferred ev ≤ BUFFER_SIZE)
    (hinv : body_inv env.size_bits c) :
    body_inv env.size_bits (deliver env c ev) := by
  obtain ⟨hold, hphase⟩ := hinv
  cases ev with
  | write ec =>
    cases hp : c.pending with
    | write =>
      refine ⟨?_, ?_⟩
      · intro req hreq
        apply hold req
        cases ec <;>
          simpa [deliver, hp, handle_write, handler_calls_append, handler_calls] using hreq
      · cases ec <;> simp [deliver, hp, handle_write]
    | read_headers =>
      have hd : deliver env c (completion.write ec) = c := by simp [deliver, hp]
      rw [hd]
      exact ⟨hold, hphase⟩
    | read_body_contents n =>
      have hd : deliver env c (completion.write ec) = c := by simp [deliver, hp]
      rw [hd]
      exact ⟨hold, hphase⟩
    | idle =>
      have hd : deliver env c (completion.write ec) = c := by simp [deliver, hp]
      rw [hd]
      exact ⟨hold, hphase⟩
  | read ec data =>
    have hdata : data.length ≤ BUFFER_SIZE := hsize
    cases hp : c.pending with
    | write =>
      have hd : deliver env c (completion.read ec data) = c := by simp [deliver, hp]
      rw [hd]
      exact ⟨hold, hphase⟩
    | idle =>
      have hd : deliver env c (completion.read ec data) = c := by simp [deliver, hp]
      rw [hd]
      exact ⟨hold, hphase⟩
    | read_headers =>
      rw [hp] at hphase
      cases ec with
      | true => exact ⟨by simpa [deliver, hp, handle_read_headers] using hold,
          by simp [deliver, hp, handle_read_headers]⟩
      | false =>
        have hd : deliver env c (completion.read false data) =
            handle_read_headers env c false data := by simp [deliver, hp]
        have hb : (after_parse env c data).request_.body = [] := by
          show (parsed env c data).request.body = []
          unfold parsed
          rw [hkeep]
          exact hphase
        have hold2 : ∀ req ∈ handler_calls (after_parse env c data).trace,
            body_good env.size_bits req := hold
        rw [hd]
        unfold handle_read_headers
        simp only [Bool.false_eq_true, if_false]
        split
        · exact body_inv_headers_done env _ _ data hcap hdata hold2 hb
        · exact body_inv_reply_bad_request env _ hold2
        · refine ⟨?_, hb⟩
          intro req hreq
          apply hold req
          simpa [schedule_read, after_parse, handler_calls_append, handler_calls] using hreq
    | read_body_contents r =>
      rw [hp] at hphase
      cases ec with
      | true => exact ⟨by simpa [deliver, hp, handle_read_body_contents] using hold,
          by simp [deliver, hp, handle_read_body_contents]⟩
      | false =>
        have hd : deliver env c (completion.read false data) =
            handle_read_body_contents env c false r data := by simp [deliver, hp]
        rw [hd]
        exact body_inv_read_body env c r data hcap hdata hold hphase.1 hphase.2.1 hphase.2.2

theorem body_inv_run (env : collab PS Resp)
    (hkeep : ∀ ps rq d, (env.parse_headers ps rq d).request.body = rq.body)
    (hcap : BUFFER_SIZE < 2 ^ env.size_bits) :
    ∀ (evs : List completion) (c : sync_connection PS Resp),
      (∀ ev ∈ evs, bytes_transferred ev ≤ BUFFER_SIZE) → body_inv env.size_bits c →
      body_inv env.size_bits (run env c evs)
  | [], _, _, h => h
  | ev :: evs, c, hsize, h => by
    rw [run_cons]
    exact body_inv_run env hkeep hcap evs _ (fun e he => hsize e (List.mem_cons_of_mem _ he))
      (body_inv_deliver env c ev hkeep hcap (hsize ev (List.mem_cons_self _ _)) h)

variable {PS Resp : Type}

theorem two_pow_pred_double {w : Nat} (hwin : BUFFER_SIZE ≤ string_max_size w) :
    2 ^ w = 2 * 2 ^ (w - 1) := by
  cases w with
  | zero => simp [string_max_size, BUFFER_SIZE] at hwin
  | succ n => rw [Nat.add_sub_cancel, Nat.pow_succ, Nat.mul_comm]

theorem body_length_dichotomy (env : collab PS Resp) (c : sync_connection PS Resp)
    (evs : List completion) (req : basic_request) (it : request_header) (K : Nat)
    (hkeep : ∀ ps rq d, (env.parse_headers ps rq d).request.body = rq.body)
    (hcap : BUFFER_SIZE < 2 ^ env.size_bits)
    (hpend : c.pending = pending_op.read_headers) (hempty : c.request_.body = [])
    (hnew : handler_calls c.trace = [])
    (hsize : ∀ ev ∈ evs, bytes_transferred ev ≤ BUFFER_SIZE)
    (hcall : req ∈ handler_calls (run env c evs).trace)
    (hP : req.method.head? = some 'P')
    (hfind : req.headers.find? is_content_length = some it)
    (hK : stoul env.size_bits it.value = some K) :
    req.body.length = K ∨ 2 ^ env.size_bits < req.body.length + BUFFER_SIZE := by
  have h0 : body_inv env.size_bits c := by
    refine ⟨?_, ?_⟩
    · intro r hr
      rw [hnew] at hr
      cases hr
    · rw [hpend]
      exact hempty
  exact (body_inv_run env hkeep hcap evs c hsize h0).1 req hcall it K hP hfind hK

/-- C2 (body-length invariant).  Let the body be empty at first, let the
parser leave the body alone and let every read bring at most `BUFFER_SIZE`
bytes.  Then along any sequence of completions, whenever the handler is called
with a body-bearing request whose `Content-Length` converts to `K`, the body
has exactly `K` bytes.  The body is a `std::string`, so its length is within
`string_max_size`; the window is within that size as well. -/
theorem body_length_invariant (env : collab PS Resp) (c : sync_connection PS Resp)
    (evs : List completion) (req : basic_request) (it : request_header) (K : Nat)
    (hkeep : ∀ ps rq d, (env.parse_headers ps rq d).request.body = rq.body)
    (hwin : BUFFER_SIZE ≤ string_max_size env.size_bits)
    (hpend : c.pending = pending_op.read_headers) (hempty : c.request_.body = [])
    (hnew : handler_calls c.trace = [])
    (hsize : ∀ ev ∈ evs, bytes_transferred ev ≤ BUFFER_SIZE)
    (hcall : req ∈ handler_calls (run env c evs).trace)
    (hP : req.method.head? = some 'P')
    (hfind : req.headers.find? is_content_length = some it)
    (hK : stoul env.size_bits it.value = some K)
    (hfit : req.body.length ≤ string_max_size env.size_bits) :
    req.body.length = K := by
  have h2 := two_pow_pred_double hwin
  simp only [string_max_size] at hwin hfit
  generalize 2 ^ (env.size_bits - 1) = half at h2 hwin hfit
  have hpow : 0 < 2 ^ env.size_bits := Nat.two_pow_pos _
  have hcap : BUFFER_SIZE < 2 ^ env.size_bits := by omega
  rcases body_length_dichotomy env c evs req it K hkeep hcap hpend hempty hnew hsize hcall
    hP hfind hK with h | h
  · exact h
  · omega

/-- Witness of C2: `Content-Length: 10`, then `12345` and `67890`. -/
theorem body_length_invariant_witness : ten_byte_request.body.length = 10 :=
  body_length_invariant (post_env "10") fresh
    [completion.read false head_bytes, completion.read false "12345".toList,
      completion.read false "67890".toList]
    ten_byte_request (content_length_header "10") 10
    (fun _ _ _ => rfl) (by decide) rfl rfl rfl (by decide) (by decide) rfl rfl (by decide)
    (by decide)

variable {PS Resp : Type}

/-! ## `stoul`, characterised by the shape of the value -/

theorem strip_sign_shape (l : List Char) :
    ∃ sign, (sign = [] ∨ sign = ['+'] ∨ sign = ['-']) ∧ l = sign ++ (strip_sign l).2 ∧
      ((strip_sign l).1 = true ↔ sign = ['-']) := by
  unfold strip_sign
  split
  · exact ⟨['-'], Or.inr (Or.inr rfl), rfl, by simp⟩
  · exact ⟨['+'], Or.inr (Or.inl rfl), rfl, by simp⟩
  · exact ⟨[], Or.inl rfl, rfl, by simp⟩

theorem strip_sign_of_sign (sign ds rest : List Char)
    (hsign : sign = [] ∨ sign = ['+'] ∨ sign = ['-']) (hne : ds ≠ [])
    (hds : ∀ d ∈ ds, d.isDigit = true) :
    strip_sign (sign ++ (ds ++ rest)) = (decide (sign = ['-']), ds ++ rest) := by
  rcases hsign with h | h | h
  · subst h
    cases ds with
    | nil => exact absurd rfl hne
    | cons d t =>
      rw [List.nil_append, List.cons_append, strip_sign_of_isDigit _ (hds d (by simp))]
      simp
  · subst h
    simp [strip_sign]
  · subst h
    simp [strip_sign]

theorem dropWhile_isspace_of_sign (sign ds rest : List Char)
    (hsign : sign = [] ∨ sign = ['+'] ∨ sign = ['-']) (hne : ds ≠ [])
    (hds : ∀ d ∈ ds, d.isDigit = true) :
    (sign ++ (ds ++ rest)).dropWhile isspace = sign ++ (ds ++ rest) := by
  rcases hsign with h | h | h
  · subst h
    cases ds with
    | nil => exact absurd rfl hne
    | cons d t =>
      have hsp : isspace d = false := not_isspace_of_isDigit (hds d (by simp))
      simp [List.dropWhile, hsp]
  · subst h
    have hsp : isspace '+' = false := by decide
    simp [List.dropWhile, hsp]
  · subst h
    have hsp : isspace '-' = false := by decide
    simp [List.dropWhile, hsp]

theorem stoul_of_shape (w : Nat) (v ws sign ds rest : List Char)
    (h : reads_as_number v ws sign ds rest) :
    stoul w v =
      if 2 ^ w ≤ digits_value ds then none else some (signed_value w sign ds) := by
  obtain ⟨hv, hws, hsign, hne, hds, hrest⟩ := h
  have hdrop : v.dropWhile isspace = sign ++ (ds ++ rest) := by
    rw [hv, List.dropWhile_append_of_pos hws, dropWhile_isspace_of_sign sign ds rest hsign hne hds]
  have htake : (ds ++ rest).takeWhile Char.isDigit = ds := takeWhile_digit_run ds rest hds hrest
  simp only [stoul, hdrop, strip_sign_of_sign sign ds rest hsign hne hds, htake, signed_value]
  by_cases hge : 2 ^ w ≤ digits_value ds
  · simp [hne, hge]
  · by_cases hm : sign = ['-'] <;> simp [hne, hge, hm]

theorem stoul_eq_some_iff (w : Nat) (v : List Char) (n : Nat) :
    stoul w v = some n ↔
      ∃ ws sign ds rest, reads_as_number v ws sign ds rest ∧ digits_value ds < 2 ^ w ∧
        n = signed_value w sign ds := by
  constructor
  · intro h
    obtain ⟨sign, hsign, hl, hneg⟩ := strip_sign_shape (v.dropWhile isspace)
    have hshape : reads_as_number v (v.takeWhile isspace) sign
        ((strip_sign (v.dropWhile isspace)).2.takeWhile Char.isDigit)
        ((strip_sign (v.dropWhile isspace)).2.dropWhile Char.isDigit) →
        digits_value ((strip_sign (v.dropWhile isspace)).2.takeWhile Char.isDigit) < 2 ^ w →
        stoul w v = some (signed_value w sign
          ((strip_sign (v.dropWhile isspace)).2.takeWhile Char.isDigit)) := by
      intro hs hlt
      rw [stoul_of_shape w v _ _ _ _ hs, if_neg (by omega)]
    have hne : (strip_sign (v.dropWhile isspace)).2.takeWhile Char.isDigit ≠ [] := by
      intro hnil
      simp [stoul, hnil] at h
    have hlt : digits_value ((strip_sign (v.dropWhile isspace)).2.takeWhile Char.isDigit)
        < 2 ^ w := by
      by_contra hge
      have hge2 : 2 ^ w ≤
          digits_value ((strip_sign (v.dropWhile isspace)).2.takeWhile Char.isDigit) := by
        omega
      simp [stoul, hne, hge2] at h
    have hs : reads_as_number v (v.takeWhile isspace) sign
        ((strip_sign (v.dropWhile isspace)).2.takeWhile Char.isDigit)
        ((strip_sign (v.dropWhile isspace)).2.dropWhile Char.isDigit) := by
      refine ⟨?_, ?_, hsign, hne, ?_, ?_⟩
      · rw [List.takeWhile_append_dropWhile, ← hl, List.takeWhile_append_dropWhile]
      · intro c hc
        exact List.mem_takeWhile_imp hc
      · intro d hd
        exact List.mem_takeWhile_imp hd
      · intro ch hch
        have := List.head?_dropWhile_not Char.isDigit (strip_sign (v.dropWhile isspace)).2
        rw [hch] at this
        simpa using this
    refine ⟨_, _, _, _, hs, hlt, ?_⟩
    have h2 := hshape hs hlt
    rw [h] at h2
    exact Option.some.inj h2
  · rintro ⟨ws, sign, ds, rest, hs, hlt, hn⟩
    rw [stoul_of_shape w v ws sign ds rest hs, if_neg (by omega), hn]

theorem stoul_eq_none_iff (w : Nat) (v : List Char) :
    stoul w v = none ↔
      ¬ ∃ ws sign ds rest, reads_as_number v ws sign ds rest ∧ digits_value ds < 2 ^ w := by
  constructor
  · rintro h ⟨ws, sign, ds, rest, hs, hlt⟩
    have h2 := (stoul_eq_some_iff w v _).mpr ⟨ws, sign, ds, rest, hs, hlt, rfl⟩
    rw [h] at h2
    cases h2
  · intro h
    cases hs : stoul w v with
    | none => rfl
    | some n =>
      obtain ⟨ws, sign, ds, rest, h1, h2, _⟩ := (stoul_eq_some_iff w v n).mp hs
      exact absurd ⟨ws, sign, ds, rest, h1, h2⟩ h

variable {PS Resp : Type}

/-- C7, amended.  For a body-bearing request with first `Content-Length` header
`it`: the header-complete read behaves as for a missing header (stock 400
reply, no handler call and no read, then or later) exactly when the value is
not of the shape white space, optional sign, digit run below `2 ^ size_bits`,
anything; and a value of that shape is accepted with the number of the digit
run (negated modulo `2 ^ size_bits` after a minus sign), whatever follows the
run. -/
theorem content_length_conversion (env : collab PS Resp) (c : sync_connection PS Resp)
    (data : List Char) (it : request_header)
    (hpend : c.pending = pending_op.read_headers)
    (hdone : (parsed env c data).done = tribool.true_value)
    (hP : (parsed env c data).request.method.head? = some 'P')
    (hfind : (parsed env c data).request.headers.find? is_content_length = some it) :
    (deliver env c (completion.read false data) =
        reply_bad_request env (after_parse env c data) ↔
      ¬ ∃ ws sign ds rest, reads_as_number it.value ws sign ds rest ∧
        digits_value ds < 2 ^ env.size_bits) ∧
    ((¬ ∃ ws sign ds rest, reads_as_number it.value ws sign ds rest ∧
        digits_value ds < 2 ^ env.size_bits) →
      (deliver env c (completion.read false data)).response_ = env.stock_reply_bad_request ∧
      (deliver env c (completion.read false data)).trace =
        c.trace ++ [action.async_write env.stock_reply_bad_request] ∧
      (deliver env c (completion.read false data)).pending = pending_op.write ∧
      ∀ evs : List completion,
        handler_calls (run env c (completion.read false data :: evs)).trace =
            handler_calls c.trace ∧
          reads_issued (run env c (completion.read false data :: evs)).trace =
            reads_issued c.trace ∧
          (run env c (completion.read false data :: evs)).response_ =
            env.stock_reply_bad_request) ∧
    ∀ ws sign ds rest : List Char, reads_as_number it.value ws sign ds rest →
      digits_value ds < 2 ^ env.size_bits →
      deliver env c (completion.read false data) =
        after_content_length env (after_parse env c data)
          (signed_value env.size_bits sign ds) (parsed env c data).new_start data := by
  have hP2 : (after_parse env c data).request_.method.head? = some 'P' := hP
  have hf : (after_parse env c data).request_.headers.find? is_content_length = some it :=
    hfind
  have hstep := deliver_read_headers env c data hpend hdone
  have hiff : deliver env c (completion.read false data) =
      reply_bad_request env (after_parse env c data) ↔
      stoul env.size_bits it.value = none := by
    rw [hstep]
    cases hs : stoul env.size_bits it.value with
    | none => simp [headers_done, hP2, hf, hs]
    | some K =>
      rw [headers_done_length env _ _ data it K hP2 hf hs]
      simp [after_content_length_ne_bad_request]
  refine ⟨hiff.trans (stoul_eq_none_iff env.size_bits it.value), ?_, ?_⟩
  · intro hno
    exact bad_request_outcome env c data
      (hiff.mpr ((stoul_eq_none_iff env.size_bits it.value).mpr hno))
  · intro ws sign ds rest hs hlt
    have hK : stoul env.size_bits it.value = some (signed_value env.size_bits sign ds) :=
      (stoul_eq_some_iff env.size_bits it.value _).mpr ⟨ws, sign, ds, rest, hs, hlt, rfl⟩
    rw [hstep, headers_done_length env _ _ data it _ hP2 hf hK]

/-- Witness of C7 amended: `Content-Length: 10abc` is accepted as 10, and
`Content-Length: abc10` gets the stock 400 reply. -/
theorem content_length_conversion_witness :
    deliver (post_env "10abc") fresh (completion.read false head_bytes) =
        after_content_length (post_env "10abc")
          (after_parse (post_env "10abc") fresh head_bytes)
          (signed_value 64 [] "10".toList)
          (parsed (post_env "10abc") fresh head_bytes).new_start head_bytes ∧
      deliver (post_env "abc10") fresh (completion.read false head_bytes) =
        reply_bad_request (post_env "abc10") (after_parse (post_env "abc10") fresh head_bytes) :=
  ⟨(content_length_conversion (post_env "10abc") fresh head_bytes
      (content_length_header "10abc") rfl rfl rfl rfl).2.2 [] [] "10".toList "abc".toList
      ⟨rfl, by decide, Or.inl rfl, by decide, by decide, by decide⟩ (by decide),
    (content_length_conversion (post_env "abc10") fresh head_bytes
      (content_length_header "abc10") rfl rfl rfl rfl).1.mpr
      ((stoul_eq_none_iff 64 "abc10".toList).mp (by decide))⟩

variable {PS Resp : Type}

/-- C15 (coalesced header and body read), evaluated on a header-completing
read that carries more than the declared length.  With `Content-Length: 2` and
the 3 bytes `abc` past the cursor, the 3 bytes are appended, and the remaining
count, which cannot be `2 - 3`, is left at `2 ^ 64 - 1`: it is not 0, the
handler is not called, and a body read is issued for `2 ^ 64 - 1` bytes. -/
theorem coalesced_read_past_length :
    (deliver (post_env "2") fresh
        (completion.read false (head_bytes ++ "abc".toList))).request_.body
      = "abc".toList ∧
    (deliver (post_env "2") fresh
        (completion.read false (head_bytes ++ "abc".toList))).pending
      = pending_op.read_body_contents (2 ^ 64 - 1) ∧
    handler_calls (deliver (post_env "2") fresh
        (completion.read false (head_bytes ++ "abc".toList))).trace
      = [] ∧
    (deliver (post_env "2") fresh
        (completion.read false (head_bytes ++ "abc".toList))).trace
      = fresh.trace ++ [action.async_read_some] := by
  decide

end SyncConnection
